import Mathlib

/-!
Verification development for the chalkboard-notes backend.

The Python sources under `backend/` are shallowly embedded below:
pure functions (`fix_latex_json`, `_is_latex_command`, `_should_merge`,
`_merge_sections`, `_build_prompt`) become Lean functions over `String` /
`List Char`; the stateful upload handler (`main.py upload_image`) becomes a
state-passing function over a dynamically-typed Python value model; the
per-room `asyncio.Lock` discipline becomes a checked trace semantics.

Python strings are modelled as Lean `String` (a list of characters);
`str.isalpha` is modelled on the ASCII letter range, which agrees with
Python on every input the repository can produce here.
-/

namespace Chalk

/-- Whitespace characters stripped by Python `str.strip` / `rstrip` / `lstrip`
(ASCII range: space, tab, newline, carriage return, vertical tab, form feed). -/
def pyIsSpace (c : Char) : Bool :=
  c = ' ' || c = '\t' || c = '\n' || c = '\r' || c = Char.ofNat 11 || c = Char.ofNat 12

/-- Python `str.lstrip()` on a character list. -/
def pyLstripL (l : List Char) : List Char := l.dropWhile pyIsSpace

/-- Python `str.rstrip()` on a character list. -/
def pyRstripL (l : List Char) : List Char := (l.reverse.dropWhile pyIsSpace).reverse

/-- Python `str.lstrip()`. -/
def pyLstrip (s : String) : String := ⟨pyLstripL s.data⟩

/-- Python `str.rstrip()`. -/
def pyRstrip (s : String) : String := ⟨pyRstripL s.data⟩

/-- Python `str.endswith(suffix)`. -/
def pyEndsWith (s suf : String) : Bool := suf.data.isSuffixOf s.data

/-- Python `str.startswith(prefix)`. -/
def pyStartsWith (s pre : String) : Bool := pre.data.isPrefixOf s.data

/-- Python `str.isalpha()` for a single character (ASCII approximation). -/
def pyIsAlpha (c : Char) : Bool := c.isAlpha

/-- The table `_LATEX_CMDS_BY_FIRST` from `gemini_service.py`: known LaTeX
commands whose first letter collides with a JSON single-character escape. -/
def latexCmdsByFirst (c : Char) : List (List Char) :=
  if c = 'b' then
    ["bar", "beta", "bf", "big", "bigg", "binom", "boldsymbol", "bot", "bullet", "boxed"].map String.data
  else if c = 'f' then
    ["frac", "forall", "flat", "flalign"].map String.data
  else if c = 'n' then
    ["nabla", "neg", "neq", "newcommand", "newline", "not", "notin", "nu", "nolimits"].map String.data
  else if c = 'r' then
    ["rangle", "rceil", "Re", "rfloor", "rho", "right", "rightarrow", "Rightarrow"].map String.data
  else if c = 't' then
    ["tau", "text", "textbf", "textit", "textrm", "theta", "tilde", "times", "to", "top", "triangle"].map String.data
  else []

/-- One candidate test inside `_is_latex_command`: the text starting at the
current position equals `cmd` and the following character (if any) is
non-alphabetic (`text[pos:end] == cmd and (end >= len(text) or not text[end].isalpha())`). -/
def matchesCmdAt (cmd : List Char) (s : List Char) : Bool :=
  cmd.isPrefixOf s &&
    (match s.drop cmd.length with
     | [] => true
     | c :: _ => !pyIsAlpha c)

/-- Embedding of `_is_latex_command(text, pos)` from `gemini_service.py`,
phrased on the suffix `text[pos:]` (the function only reads the text from
`pos` onward).  Returns `false` on the empty suffix (`pos >= len(text)`). -/
def is_latex_command : List Char → Bool
  | [] => false
  | c :: rest => (latexCmdsByFirst c).any (fun cmd => matchesCmdAt cmd (c :: rest))

/-- Membership in Python's hex-digit string `'0123456789abcdefABCDEF'`. -/
def pyIsHex (c : Char) : Bool := "0123456789abcdefABCDEF".data.contains c

/-- The scanning loop of `fix_latex_json` from `gemini_service.py`.  The Bool
argument is the `in_string` flag; the list is the unread remainder `text[i:]`.
Each branch mirrors one branch of the Python `while` loop, producing the
characters appended to `result` followed by the recursive continuation.
In the backslash branches that advance `i` by only one position (`i += 1`),
the character after the backslash is consumed in the same equation: the next
Python iteration would merely copy it (it is never `"` nor a backslash in
those branches), so its copy is emitted here and scanning continues after it. -/
def fixGo : List Char → Bool → List Char
  | [], _ => []
  | c :: rest, false => c :: fixGo rest (c == '"')
  | '\\' :: [], true => ['\\', '\\']
  | '\\' :: 'u' :: h1 :: h2 :: h3 :: h4 :: rest6, true =>
    if pyIsHex h1 && pyIsHex h2 && pyIsHex h3 && pyIsHex h4 then
      '\\' :: 'u' :: h1 :: h2 :: h3 :: h4 :: fixGo rest6 true
    else
      '\\' :: '\\' :: 'u' :: fixGo (h1 :: h2 :: h3 :: h4 :: rest6) true
  | '\\' :: c2 :: rest2, true =>
    if c2 = '\\' then '\\' :: '\\' :: fixGo rest2 true
    else if c2 = '"' then '\\' :: '"' :: fixGo rest2 true
    else if c2 = '/' then '\\' :: '/' :: fixGo rest2 true
    else if c2 = 'b' || c2 = 'f' || c2 = 'n' || c2 = 'r' || c2 = 't' then
      if is_latex_command (c2 :: rest2) then
        '\\' :: '\\' :: c2 :: fixGo rest2 true
      else
        '\\' :: c2 :: fixGo rest2 true
    else
      '\\' :: '\\' :: c2 :: fixGo rest2 true
  | c :: rest, true => c :: fixGo rest (!(c == '"'))

/-- Embedding of `fix_latex_json(text)` from `gemini_service.py`. -/
def fix_latex_json (s : String) : String := ⟨fixGo s.data false⟩

example : fix_latex_json "\"\\theta\"" = "\"\\\\theta\"" := by decide
example : fix_latex_json "\"a\\tb\"" = "\"a\\tb\"" := by decide
example : fix_latex_json "\"a\\t.\"" = "\"a\\t.\"" := by decide

/-- Lexical cleanliness of a text with respect to the scanner of
`fix_latex_json`: every backslash occurring inside a double-quoted string
literal begins a legitimate JSON escape (`\\`, `\"`, `\/`, `\uXXXX`, or one of
`\b \f \n \r \t` whose following letters do NOT spell a LaTeX command from the
table).  Any text that a standard JSON parser accepts and that contains no
LaTeX command from the table after a `bfnrt` escape satisfies this predicate,
because JSON string literals admit exactly those escapes.  The recursion shape
deliberately mirrors `fixGo` case by case. -/
def jsonCleanNoLatex : List Char → Bool → Bool
  | [], _ => true
  | c :: rest, false => jsonCleanNoLatex rest (c == '"')
  | '\\' :: [], true => false
  | '\\' :: 'u' :: h1 :: h2 :: h3 :: h4 :: rest6, true =>
    if pyIsHex h1 && pyIsHex h2 && pyIsHex h3 && pyIsHex h4 then
      jsonCleanNoLatex rest6 true
    else false
  | '\\' :: c2 :: rest2, true =>
    if c2 = '\\' then jsonCleanNoLatex rest2 true
    else if c2 = '"' then jsonCleanNoLatex rest2 true
    else if c2 = '/' then jsonCleanNoLatex rest2 true
    else if c2 = 'b' || c2 = 'f' || c2 = 'n' || c2 = 'r' || c2 = 't' then
      !is_latex_command (c2 :: rest2) && jsonCleanNoLatex rest2 true
    else false
  | c :: rest, true => jsonCleanNoLatex rest (!(c == '"'))

/-- On lexically clean text the scanner is the identity. -/
theorem fixGo_eq_of_clean (l : List Char) (b : Bool)
    (h : jsonCleanNoLatex l b = true) : fixGo l b = l := by
  induction l, b using jsonCleanNoLatex.induct <;>
    simp_all [jsonCleanNoLatex, fixGo]

/-- One extracted section, as produced by the extraction model and consumed by
`_merge_sections` (only the fields that function reads and writes). -/
structure Sec where
  section_id : String
  type : String
  content : String
  deriving Repr, DecidableEq

/-- The set `terminal_punct = {".", "!", "?", ":", ";", "—"}` from
`_should_merge`. -/
def terminalPunct : List Char := ['.', '!', '?', ':', ';', '—']

/-- Python `text.rfind("$", 0, len(text) - 1)` as used in `_should_merge`:
the highest index of `'$'` strictly below the final character, `none` for the
Python result `-1`. -/
def rfindDollar (l : List Char) : Option Nat :=
  let t := l.take (l.length - 1)
  match t.reverse.findIdx? (· == '$') with
  | some j => some (t.length - 1 - j)
  | none => none

/-- The `check_prev` computation of `_should_merge`: starting from the
rstripped previous content, if it ends with a single (non-display) `$`, cut at
the previous `$` when that occurs at a positive index, otherwise drop just the
final character; then rstrip again. -/
def checkPrevOf (prevContent : List Char) : List Char :=
  if prevContent.getLast? = some '$' && !(['$', '$'].isSuffixOf prevContent) then
    match rfindDollar prevContent with
    | some k => if k > 0 then pyRstripL (prevContent.take k) else pyRstripL prevContent.dropLast
    | none => pyRstripL prevContent.dropLast
  else prevContent

/-- Embedding of `_should_merge(prev, curr)` from `gemini_service.py`. -/
def should_merge (prev curr : Sec) : Bool :=
  if prev.type = "diagram" || curr.type = "diagram" then false
  else
    let prev_content := pyRstripL prev.content.data
    let curr_content := pyLstripL curr.content.data
    if prev_content.isEmpty || curr_content.isEmpty then false
    else if ['$', '$'].isSuffixOf prev_content then false
    else if ['$', '$'].isPrefixOf (pyLstripL curr_content) then false
    else
      let check_prev := checkPrevOf prev_content
      let ends_with_punct :=
        !check_prev.isEmpty &&
          (match check_prev.getLast? with
           | some c => terminalPunct.contains c
           | none => false)
      !ends_with_punct

/-- The `type_priority` table `{"equation": 3, "definition": 3, "step": 2,
"note": 1}` with default 0, from `_merge_sections`. -/
def typePriority (t : String) : Nat :=
  if t = "equation" then 3
  else if t = "definition" then 3
  else if t = "step" then 2
  else if t = "note" then 1
  else 0

/-- The merge-branch update of `_merge_sections`: the two in-place mutations
`prev["content"] = prev["content"].rstrip() + joiner + section["content"].lstrip()`
(with `joiner` as computed there) and the conditional type promotion. -/
def mergedSection (prev s : Sec) : Sec :=
  let joiner := if !(pyEndsWith (pyRstrip prev.content) "\n") then " " else ""
  { prev with
    content := pyRstrip prev.content ++ joiner ++ pyLstrip s.content,
    type := if typePriority s.type > typePriority prev.type then s.type else prev.type }

/-- The consumed-id recording of `_merge_sections`: `sid = section.get("section_id");
if sid: consumed_ids.append(sid)` (a missing id is modelled as the empty,
falsy string). -/
def consumedOf (s : Sec) : List String :=
  if s.section_id ≠ "" then [s.section_id] else []

/-- The loop body of `_merge_sections`, carrying the current last element of
`merged` (the accumulator that Python mutates in place via `merged[-1]`).
When the incoming section merges, the carried section absorbs its content and
possibly its type, and the incoming non-empty `section_id` is recorded as
consumed; otherwise the carried section is emitted and the incoming section
(as a fresh copy) becomes the new accumulator. -/
def mergeGo (prev : Sec) : List Sec → List Sec × List String
  | [] => ([prev], [])
  | s :: rest =>
    if should_merge prev s then
      let r := mergeGo (mergedSection prev s) rest
      (r.1, consumedOf s ++ r.2)
    else
      let r := mergeGo s rest
      (prev :: r.1, r.2)

/-- Embedding of `_merge_sections(sections)` from `gemini_service.py`:
returns the merged section list and the consumed section ids. -/
def merge_sections : List Sec → List Sec × List String
  | [] => ([], [])
  | s :: rest => mergeGo s rest

example :
    merge_sections [⟨"block-1", "note", "f is continuous and"⟩, ⟨"block-2", "note", "differentiable."⟩]
      = ([⟨"block-1", "note", "f is continuous and differentiable."⟩], ["block-2"]) := by decide

example :
    merge_sections [⟨"block-1", "note", "f is continuous."⟩, ⟨"block-2", "note", "Next, consider g."⟩]
      = ([⟨"block-1", "note", "f is continuous."⟩, ⟨"block-2", "note", "Next, consider g."⟩], []) := by
  decide

/-- Spec-side reading of the "effective last character" of the left block,
following the claim wording: take the content with trailing whitespace
stripped; when it ends with one trailing inline-math span `$...$` (a single
closing `$`, not `$$`, with an opening `$` earlier in the text), strip that
span and again any trailing whitespace; the effective last character is the
last character of the result, when one exists.  Written from the claim, to be
compared with the source computation `checkPrevOf`. -/
def effLastSpec (content : String) : Option Char :=
  let t := pyRstripL content.data
  let t2 :=
    if t.getLast? = some '$' && !(['$', '$'].isSuffixOf t) then
      match rfindDollar t with
      | some k => pyRstripL (t.take k)
      | none => t
    else t
  t2.getLast?

/-- Spec-side merge decision, written from the claim wording: never merge
diagrams, a left side ending in display math, or a right side starting with
display math; otherwise merge exactly when the effective last character
(`effLastSpec`) is absent or not terminal punctuation. -/
def shouldMergeSpec (prev curr : Sec) : Bool :=
  if prev.type = "diagram" || curr.type = "diagram" then false
  else
    let prev_content := pyRstripL prev.content.data
    let curr_content := pyLstripL curr.content.data
    if prev_content.isEmpty || curr_content.isEmpty then false
    else if ['$', '$'].isSuffixOf prev_content then false
    else if ['$', '$'].isPrefixOf curr_content then false
    else
      match effLastSpec prev.content with
      | some c => !terminalPunct.contains c
      | none => true

/-- Effective last character as the source actually computes it: the last
character of `check_prev` in `_should_merge`. -/
def effLastChar (content : String) : Option Char :=
  (checkPrevOf (pyRstripL content.data)).getLast?

example : effLastChar "f is continuous and" = some 'd' := by decide
example : effLastChar "f is $\\sin(x)$" = some 's' := by decide
example : effLastSpec "x.$" = some '$' := by decide
example : effLastChar "x.$" = some '.' := by decide

theorem dropWhile_head_false {α : Type} (p : α → Bool) (l : List α) {c : α} {rest : List α}
    (h : l.dropWhile p = c :: rest) : p c = false := by
  induction l with
  | nil => simp at h
  | cons a l ih =>
    by_cases hp : p a
    · exact ih (by simpa [List.dropWhile, hp] using h)
    · simp [List.dropWhile, hp] at h
      simp [← h.1, hp]

theorem rstrip_not_endswith_newline (s : String) : pyEndsWith (pyRstrip s) "\n" = false := by
  unfold pyEndsWith pyRstrip pyRstripL
  simp only [List.isSuffixOf, List.reverse_reverse]
  cases h : s.data.reverse.dropWhile pyIsSpace with
  | nil => rfl
  | cons c rest =>
    have hc : pyIsSpace c = false := dropWhile_head_false _ _ h
    have : ('\n' == c) = false := by
      cases hnc : ('\n' == c)
      · rfl
      · exfalso
        have : c = '\n' := by
          have := eq_of_beq hnc
          exact this.symm
        rw [this] at hc
        simp [pyIsSpace] at hc
    simp [List.isPrefixOf, this]

theorem lstrip_idem (l : List Char) : pyLstripL (pyLstripL l) = pyLstripL l := by
  unfold pyLstripL
  cases h : l.dropWhile pyIsSpace with
  | nil => rfl
  | cons c rest =>
    have hc : pyIsSpace c = false := dropWhile_head_false _ _ h
    simp [List.dropWhile, hc]

/-- Claim C3 (amended): the merge decision never merges diagram sections, a
left side ending in display math, or a right side starting with display math;
otherwise, with both trimmed contents non-empty, it merges exactly when the
effective last character of the left side — computed as the source does: trim
trailing whitespace, then on a single trailing `$` cut at an earlier `$` when
one occurs at a positive index and otherwise drop just that `$`, then trim
again — is absent or is not one of the terminal marks `. ! ? : ; —`.  In
particular a left side ending "is continuous." does not merge while one
ending "is continuous and" does. -/
theorem c3_merge_decision (prev curr : Sec)
    (h3 : pyRstripL prev.content.data ≠ []) (h4 : pyLstripL curr.content.data ≠ []) :
    (prev.type = "diagram" ∨ curr.type = "diagram" → should_merge prev curr = false) ∧
    (['$', '$'].isSuffixOf (pyRstripL prev.content.data) = true → should_merge prev curr = false) ∧
    (['$', '$'].isPrefixOf (pyLstripL curr.content.data) = true → should_merge prev curr = false) ∧
    (prev.type ≠ "diagram" → curr.type ≠ "diagram" →
      ['$', '$'].isSuffixOf (pyRstripL prev.content.data) = false →
      ['$', '$'].isPrefixOf (pyLstripL curr.content.data) = false →
      (should_merge prev curr = true ↔
        ∀ c, effLastChar prev.content = some c → terminalPunct.contains c = false)) ∧
    should_merge ⟨"block-1", "note", "f is continuous."⟩ ⟨"block-2", "note", "Next, consider g."⟩
      = false ∧
    should_merge ⟨"block-1", "note", "f is continuous and"⟩ ⟨"block-2", "note", "differentiable."⟩
      = true := by
  refine ⟨?_, ?_, ?_, ?_, by decide, by decide⟩
  · intro h
    unfold should_merge
    rcases h with h | h <;> simp [h]
  · intro h
    unfold should_merge
    simp [h]
  · intro h
    unfold should_merge
    simp [h, lstrip_idem]
  · intro hd1 hd2 hs he
    unfold should_merge effLastChar
    simp [hd1, hd2, hs, he, lstrip_idem, List.isEmpty_iff, h3, h4]
    cases hcp : (checkPrevOf (pyRstripL prev.content.data)).getLast? with
    | none =>
      simp [List.getLast?_eq_none_iff.mp hcp]
    | some c =>
      have : checkPrevOf (pyRstripL prev.content.data) ≠ [] := by
        intro hnil
        rw [hnil] at hcp
        simp at hcp
      simp [List.isEmpty_iff, this, hcp]

/-- Claim C3 counterexample: for a left side with content `"x.$"` (a lone
trailing `$` with no earlier `$`), the claim as stated computes the effective
last character `'$'` (there is no trailing inline-math span to strip), which
is not terminal punctuation, so the claimed decision is to merge — but the
source drops the lone `$` and sees the terminal `'.'`, refusing the merge. -/
theorem c3_merge_decision_counterexample :
    shouldMergeSpec ⟨"block-1", "note", "x.$"⟩ ⟨"block-2", "note", "y"⟩ = true ∧
    should_merge ⟨"block-1", "note", "x.$"⟩ ⟨"block-2", "note", "y"⟩ = false := by decide

/-- Witness for `c3_merge_decision` at concrete sections. -/
theorem c3_merge_decision_witness :
    pyRstripL (String.data "f is continuous and") ≠ [] ∧
    pyLstripL (String.data "differentiable.") ≠ [] ∧
    (should_merge ⟨"block-1", "note", "f is continuous and"⟩ ⟨"block-2", "note", "differentiable."⟩
        = true ↔
      ∀ c, effLastChar "f is continuous and" = some c → terminalPunct.contains c = false) :=
  ⟨by decide, by decide,
    ((c3_merge_decision ⟨"block-1", "note", "f is continuous and"⟩
        ⟨"block-2", "note", "differentiable."⟩ (by decide) (by decide)).2.2.2.1
      (by decide) (by decide) (by decide) (by decide))⟩

/-- Claim C6 (amended): when the merge decision accepts a pair, the merged
section carries the concatenation of prev's content (trailing whitespace
stripped) and curr's content (leading whitespace stripped) joined by a single
space — always, because the newline exception in the source tests the
already-rstripped content and can never fire — keeps prev's `section_id`,
takes curr's type exactly when it has strictly higher priority under
equation = definition = 3 > step = 2 > note = 1 (default 0), and records
curr's `section_id` as consumed when that id is non-empty. -/
theorem c6_merge_effect (prev curr : Sec) (h : should_merge prev curr = true) :
    merge_sections [prev, curr] =
      ([{ prev with
            content := pyRstrip prev.content ++ " " ++ pyLstrip curr.content,
            type := if typePriority curr.type > typePriority prev.type then curr.type
                    else prev.type }],
        if curr.section_id ≠ "" then [curr.section_id] else []) := by
  unfold merge_sections mergeGo
  rw [h]
  simp [mergeGo, mergedSection, consumedOf, rstrip_not_endswith_newline]

/-- Claim C6 counterexample: with prev content ending in a newline the source
still joins with a single space (the newline is stripped), so the merged
content is "Hello world." and not the claimed newline-preserving
concatenation "Hello\nworld."; and a consumed id is only recorded when
non-empty — an accepted pair whose right side has an empty `section_id`
records nothing. -/
theorem c6_merge_effect_counterexample :
    should_merge ⟨"block-1", "note", "Hello\n"⟩ ⟨"block-2", "note", "world."⟩ = true ∧
    (merge_sections [⟨"block-1", "note", "Hello\n"⟩, ⟨"block-2", "note", "world."⟩]).1
      = [⟨"block-1", "note", "Hello world."⟩] ∧
    ("Hello world." : String) ≠ "Hello\n" ++ "world." ∧
    should_merge ⟨"block-1", "note", "x and"⟩ ⟨"", "note", "y."⟩ = true ∧
    (merge_sections [⟨"block-1", "note", "x and"⟩, ⟨"", "note", "y."⟩]).2 = [] := by decide

/-- Witness for `c6_merge_effect` at a concrete accepted pair. -/
theorem c6_merge_effect_witness :
    should_merge ⟨"block-1", "note", "f is continuous and"⟩ ⟨"block-2", "step", "differentiable."⟩
      = true ∧
    merge_sections
        [⟨"block-1", "note", "f is continuous and"⟩, ⟨"block-2", "step", "differentiable."⟩]
      = ([{ Sec.mk "block-1" "note" "f is continuous and" with
              content := pyRstrip "f is continuous and" ++ " " ++ pyLstrip "differentiable.",
              type := if typePriority "step" > typePriority "note" then "step" else "note" }],
          if ("block-2" : String) ≠ "" then ["block-2"] else []) :=
  ⟨by decide,
    c6_merge_effect ⟨"block-1", "note", "f is continuous and"⟩
      ⟨"block-2", "step", "differentiable."⟩ (by decide)⟩

instance : Inhabited Sec := ⟨⟨"", "", ""⟩⟩

theorem mergeGo_perm (rest : List Sec) : ∀ (prev : Sec), (∀ s ∈ rest, s.section_id ≠ "") →
    ((mergeGo prev rest).1.map Sec.section_id ++ (mergeGo prev rest).2).Perm
      (prev.section_id :: rest.map Sec.section_id) := by
  induction rest with
  | nil => intro prev _; simp [mergeGo]
  | cons s rest ih =>
    intro prev h
    have hs : s.section_id ≠ "" := h s (by simp)
    have hrest : ∀ t ∈ rest, t.section_id ≠ "" := fun t ht => h t (by simp [ht])
    unfold mergeGo
    cases hm : should_merge prev s with
    | true =>
      simp only [hm, if_true, hs, consumedOf, ne_eq, not_false_iff, List.map_cons,
        List.singleton_append]
      exact List.perm_middle.trans (((ih (mergedSection prev s) hrest).cons s.section_id).trans
        (List.Perm.swap _ _ _))
    | false =>
      simp only [Bool.false_eq_true, if_false, List.map_cons, List.cons_append]
      exact (ih s hrest).cons prev.section_id

theorem mergeGo_sublist (rest : List Sec) : ∀ (prev : Sec),
    ((mergeGo prev rest).1.map Sec.section_id).Sublist
      (prev.section_id :: rest.map Sec.section_id) := by
  induction rest with
  | nil => intro prev; simp [mergeGo]
  | cons s rest ih =>
    intro prev
    unfold mergeGo
    cases hm : should_merge prev s with
    | true =>
      refine List.Sublist.trans (ih _) ?_
      simp only [List.map_cons]
      exact (List.sublist_cons_self _ _).cons_cons _
    | false =>
      simp only [Bool.false_eq_true, if_false, List.map_cons]
      exact (ih s).cons_cons _

/-- Heap of Python dict objects: addresses are indices, `dict(section)`
allocates a fresh cell at the end, `merged[-1]` mutation is `List.set` at the
address of the current last merged cell. -/
def Heap := List Sec

/-- The loop of `_merge_sections` at the object level: `heap` holds every
dict object in play, `merged` holds the addresses of the dicts in the Python
`merged` list (always addresses of freshly allocated copies), `consumed`
accumulates consumed ids, and the final argument lists the addresses of the
incoming sections. -/
def mergeLoopH (heap : List Sec) (merged : List Nat) (consumed : List String) :
    List Nat → List Sec × List Nat × List String
  | [] => (heap, merged, consumed)
  | p :: rest =>
    let s := heap.getD p default
    match merged.getLast? with
    | none => mergeLoopH (heap ++ [s]) (merged ++ [heap.length]) consumed rest
    | some q =>
      let prev := heap.getD q default
      if should_merge prev s then
        mergeLoopH (heap.set q (mergedSection prev s)) merged (consumed ++ consumedOf s) rest
      else
        mergeLoopH (heap ++ [s]) (merged ++ [heap.length]) consumed rest

/-- Object-level `_merge_sections`: returns the final heap, the addresses of
the merged sections, and the consumed ids. -/
def merge_sections_heap (heap : List Sec) (ptrs : List Nat) :
    List Sec × List Nat × List String :=
  if ptrs.isEmpty then (heap, [], []) else mergeLoopH heap [] [] ptrs

theorem take_set_of_le {α : Type} (l : List α) (i N : Nat) (v : α) (h : N ≤ i) :
    (l.set i v).take N = l.take N := by
  apply List.ext_getElem
  · simp
  · intro j hj1 hj2
    have hjN : j < N := by
      have := hj1
      simp [List.length_take] at this
      omega
    have hij : i ≠ j := by omega
    simp [List.getElem_take, List.getElem_set_ne, hij]

theorem mem_of_getLast?_eq {α : Type} {l : List α} {a : α} (h : l.getLast? = some a) :
    a ∈ l := by
  obtain ⟨hne, hx⟩ := List.mem_getLast?_eq_getLast (l := l) (x := a) (by rw [h]; rfl)
  rw [hx]
  exact List.getLast_mem hne

theorem mergeLoopH_frame (N : Nat) :
    ∀ (ps : List Nat) (heap : List Sec) (merged : List Nat) (consumed : List String),
      N ≤ heap.length → (∀ q ∈ merged, N ≤ q ∧ q < heap.length) →
      (mergeLoopH heap merged consumed ps).1.take N = heap.take N ∧
      (∀ q ∈ (mergeLoopH heap merged consumed ps).2.1, N ≤ q) := by
  intro ps
  induction ps with
  | nil =>
    intro heap merged consumed hN hm
    exact ⟨rfl, fun q hq => (hm q hq).1⟩
  | cons p rest ih =>
    intro heap merged consumed hN hm
    unfold mergeLoopH
    cases hlast : merged.getLast? with
    | none =>
      have step := ih (heap ++ [heap.getD p default]) (merged ++ [heap.length]) consumed
        (by simp; omega)
        (by
          intro q hq
          rcases List.mem_append.mp hq with hq | hq
          · have := hm q hq
            simp only [List.length_append, List.length_cons]
            omega
          · simp at hq
            subst hq
            simp only [List.length_append, List.length_cons]
            omega)
      refine ⟨?_, step.2⟩
      rw [step.1, List.take_append_of_le_length hN]
    | some q0 =>
      have hq0 : q0 ∈ merged := mem_of_getLast?_eq hlast
      cases hsm : should_merge (heap.getD q0 default) (heap.getD p default) with
      | true =>
        simp only [hsm, if_true]
        have step := ih
          (heap.set q0 (mergedSection (heap.getD q0 default) (heap.getD p default)))
          merged (consumed ++ consumedOf (heap.getD p default))
          (by simpa using hN)
          (by
            intro q hq
            have := hm q hq
            simpa using this)
        refine ⟨?_, step.2⟩
        rw [step.1, take_set_of_le _ _ _ _ (hm q0 hq0).1]
      | false =>
        simp only [hsm, Bool.false_eq_true, if_false]
        have step := ih (heap ++ [heap.getD p default]) (merged ++ [heap.length]) consumed
          (by simp; omega)
          (by
            intro q hq
            rcases List.mem_append.mp hq with hq | hq
            · have := hm q hq
              simp only [List.length_append, List.length_cons]
              omega
            · simp at hq
              subst hq
              simp only [List.length_append, List.length_cons]
              omega)
        refine ⟨?_, step.2⟩
        rw [step.1, List.take_append_of_le_length hN]

/-- Freshness of a pointer list: every address is at or beyond `n`. -/
def allFresh (n : Nat) (qs : List Nat) : Bool := qs.all (fun q => decide (n ≤ q))

example :
    (let r := merge_sections_heap
        [⟨"a", "note", "x and"⟩, ⟨"b", "note", "y and"⟩, ⟨"c", "note", "z."⟩] [0, 1, 2]
     r.2.1.map (r.1.getD · default))
      = (merge_sections
          [⟨"a", "note", "x and"⟩, ⟨"b", "note", "y and"⟩, ⟨"c", "note", "z."⟩]).1 := by decide

example :
    (merge_sections_heap
        [⟨"a", "note", "x and"⟩, ⟨"b", "note", "y and"⟩, ⟨"c", "note", "z."⟩] [0, 1, 2]).2.2
      = (merge_sections
          [⟨"a", "note", "x and"⟩, ⟨"b", "note", "y and"⟩, ⟨"c", "note", "z."⟩]).2 := by decide

/-- Claim C10 (amended): for every input whose sections all have a non-empty
`section_id` (duplicated ids allowed), the reconciler partitions the input:
kept sections plus consumed ids count the input, the output ids together with
the consumed ids are a permutation of the input ids (so every consumed id is
an input id), the output ids are an order-preserving subsequence of the input
ids, and at the object level the input dict cells are never mutated: the
original heap is a prefix of the final heap and every output section is a
freshly allocated copy.  Only the disjointness conjunct is conditional: when
the input ids are additionally pairwise distinct, the output ids and the
consumed ids remain duplicate-free, so no consumed id appears among the
output ids. -/
theorem c10_merge_partition (heap : List Sec) (ptrs : List Nat) (secs : List Sec)
    (hsecs : secs = ptrs.map (heap.getD · default))
    (hne : ∀ s ∈ secs, s.section_id ≠ "") :
    (merge_sections secs).1.length + (merge_sections secs).2.length = secs.length ∧
    ((merge_sections secs).1.map Sec.section_id ++ (merge_sections secs).2).Perm
      (secs.map Sec.section_id) ∧
    ((secs.map Sec.section_id).Nodup →
      ((merge_sections secs).1.map Sec.section_id ++ (merge_sections secs).2).Nodup) ∧
    ((merge_sections secs).1.map Sec.section_id).Sublist (secs.map Sec.section_id) ∧
    heap <+: (merge_sections_heap heap ptrs).1 ∧
    allFresh heap.length (merge_sections_heap heap ptrs).2.1 = true := by
  have hperm :
      ((merge_sections secs).1.map Sec.section_id ++ (merge_sections secs).2).Perm
        (secs.map Sec.section_id) := by
    cases secs with
    | nil => simp [merge_sections]
    | cons s rest =>
      have := mergeGo_perm rest s (fun t ht => hne t (by simp [ht]))
      simpa [merge_sections] using this
  have hsub :
      ((merge_sections secs).1.map Sec.section_id).Sublist (secs.map Sec.section_id) := by
    cases secs with
    | nil => simp [merge_sections]
    | cons s rest =>
      simpa [merge_sections] using mergeGo_sublist rest s
  have hheap :
      (merge_sections_heap heap ptrs).1.take heap.length = heap ∧
      ∀ q ∈ (merge_sections_heap heap ptrs).2.1, heap.length ≤ q := by
    unfold merge_sections_heap
    cases hpt : ptrs.isEmpty with
    | true => simp
    | false =>
      simp only [Bool.false_eq_true, if_false]
      have := mergeLoopH_frame heap.length ptrs heap [] [] (le_refl _) (by simp)
      exact ⟨by rw [this.1, List.take_length], this.2⟩
  refine ⟨?_, hperm, ?_, hsub, ?_, ?_⟩
  · have := hperm.length_eq
    simpa using this
  · exact fun hnd => hperm.nodup_iff.mpr hnd
  · exact List.prefix_iff_eq_take.mpr hheap.1.symm
  · simp only [allFresh, List.all_eq_true, decide_eq_true_eq]
    exact hheap.2

/-- Claim C10 counterexample: with duplicated input ids (allowed by the
claim, which assumes only non-empty ids) a consumed id can also be the id of
a kept output section, refuting "every consumed id ... does not appear among
the output ids": here `"b"` is consumed (second section merged away) yet also
appears as an output id (third section kept). -/
theorem c10_merge_partition_counterexample :
    ([⟨"a", "note", "x and"⟩, ⟨"b", "note", "y."⟩, ⟨"b", "note", "z."⟩] :
        List Sec).map Sec.section_id = ["a", "b", "b"] ∧
    (merge_sections [⟨"a", "note", "x and"⟩, ⟨"b", "note", "y."⟩, ⟨"b", "note", "z."⟩]).2
      = ["b"] ∧
    "b" ∈ (merge_sections
        [⟨"a", "note", "x and"⟩, ⟨"b", "note", "y."⟩, ⟨"b", "note", "z."⟩]).1.map
        Sec.section_id := by decide

/-- Witness for `c10_merge_partition` at a concrete heap and pointer list. -/
theorem c10_merge_partition_witness :
    (([⟨"block-1", "note", "f is continuous and"⟩, ⟨"block-2", "note", "differentiable."⟩] :
        List Sec)
      = ([0, 1] : List Nat).map
          (([⟨"block-1", "note", "f is continuous and"⟩,
             ⟨"block-2", "note", "differentiable."⟩] : List Sec).getD · default)) ∧
    ((merge_sections
        [⟨"block-1", "note", "f is continuous and"⟩,
         ⟨"block-2", "note", "differentiable."⟩]).1.length
      + (merge_sections
          [⟨"block-1", "note", "f is continuous and"⟩,
           ⟨"block-2", "note", "differentiable."⟩]).2.length
      = ([⟨"block-1", "note", "f is continuous and"⟩,
          ⟨"block-2", "note", "differentiable."⟩] : List Sec).length ∧
    ((merge_sections
        [⟨"block-1", "note", "f is continuous and"⟩,
         ⟨"block-2", "note", "differentiable."⟩]).1.map Sec.section_id
      ++ (merge_sections
          [⟨"block-1", "note", "f is continuous and"⟩,
           ⟨"block-2", "note", "differentiable."⟩]).2).Perm
      (([⟨"block-1", "note", "f is continuous and"⟩,
         ⟨"block-2", "note", "differentiable."⟩] : List Sec).map Sec.section_id) ∧
    ((([⟨"block-1", "note", "f is continuous and"⟩,
        ⟨"block-2", "note", "differentiable."⟩] : List Sec).map Sec.section_id).Nodup →
      ((merge_sections
        [⟨"block-1", "note", "f is continuous and"⟩,
         ⟨"block-2", "note", "differentiable."⟩]).1.map Sec.section_id
      ++ (merge_sections
          [⟨"block-1", "note", "f is continuous and"⟩,
           ⟨"block-2", "note", "differentiable."⟩]).2).Nodup) ∧
    ((merge_sections
        [⟨"block-1", "note", "f is continuous and"⟩,
         ⟨"block-2", "note", "differentiable."⟩]).1.map Sec.section_id).Sublist
      (([⟨"block-1", "note", "f is continuous and"⟩,
         ⟨"block-2", "note", "differentiable."⟩] : List Sec).map Sec.section_id) ∧
    ([⟨"block-1", "note", "f is continuous and"⟩, ⟨"block-2", "note", "differentiable."⟩] :
        List Sec)
      <+: (merge_sections_heap
          [⟨"block-1", "note", "f is continuous and"⟩, ⟨"block-2", "note", "differentiable."⟩]
          [0, 1]).1 ∧
    allFresh 2
        (merge_sections_heap
          [⟨"block-1", "note", "f is continuous and"⟩, ⟨"block-2", "note", "differentiable."⟩]
          [0, 1]).2.1 = true) :=
  ⟨by decide,
    c10_merge_partition
      [⟨"block-1", "note", "f is continuous and"⟩, ⟨"block-2", "note", "differentiable."⟩]
      [0, 1]
      [⟨"block-1", "note", "f is continuous and"⟩, ⟨"block-2", "note", "differentiable."⟩]
      (by decide) (by decide)⟩

/-- Claim C4: when the scanner sits on a backslash inside a JSON string
literal and the next character is one of `b f n r t`, it doubles the
backslash exactly when the text starting at that letter spells a complete
command word of the fixed LaTeX table — a match being accepted only when the
character following the word is non-alphabetic or the text ends there —
and otherwise keeps the single backslash; the letter itself is copied
unchanged either way.  In particular `\theta` is doubled while `\t` before a
non-letter and `\tb` are not. -/
theorem c4_ambiguous_escape (c2 : Char) (rest2 : List Char)
    (hc : c2 = 'b' ∨ c2 = 'f' ∨ c2 = 'n' ∨ c2 = 'r' ∨ c2 = 't') :
    (fixGo ('\\' :: c2 :: rest2) true
      = (if is_latex_command (c2 :: rest2) then ['\\', '\\'] else ['\\'])
          ++ c2 :: fixGo rest2 true) ∧
    (is_latex_command (c2 :: rest2) = true ↔
      ∃ cmd ∈ latexCmdsByFirst c2, cmd <+: (c2 :: rest2) ∧
        ∀ d, ((c2 :: rest2).drop cmd.length).head? = some d → pyIsAlpha d = false) ∧
    fix_latex_json "\"\\theta\"" = "\"\\\\theta\"" ∧
    fix_latex_json "\"a\\tb\"" = "\"a\\tb\"" ∧
    fix_latex_json "\"a\\t.\"" = "\"a\\t.\"" := by
  refine ⟨?_, ?_, by decide, by decide, by decide⟩
  · rcases hc with rfl | rfl | rfl | rfl | rfl <;>
      cases h : is_latex_command _ <;> simp_all [fixGo]
  · simp only [is_latex_command, List.any_eq_true]
    constructor
    · rintro ⟨cmd, hmem, hmatch⟩
      have hm2 : cmd <+: (c2 :: rest2) ∧
          (match (c2 :: rest2).drop cmd.length with
            | [] => true
            | d :: _ => !pyIsAlpha d) = true := by
        simpa [matchesCmdAt] using hmatch
      refine ⟨cmd, hmem, hm2.1, ?_⟩
      intro d hd
      cases hdrop : (c2 :: rest2).drop cmd.length with
      | nil => rw [hdrop] at hd; simp at hd
      | cons e tail =>
        have h2 := hm2.2
        rw [hdrop] at h2 hd
        simp at h2 hd
        rw [← hd]
        exact h2
    · rintro ⟨cmd, hmem, hpre, halpha⟩
      refine ⟨cmd, hmem, ?_⟩
      have hmt : (match (c2 :: rest2).drop cmd.length with
            | [] => true
            | d :: _ => !pyIsAlpha d) = true := by
        cases hdrop : (c2 :: rest2).drop cmd.length with
        | nil => rfl
        | cons e tail => simpa using halpha e (by rw [hdrop]; rfl)
      simp [matchesCmdAt, hpre, hmt]

/-- Witness for `c4_ambiguous_escape` at the letter `t` followed by `heta"`. -/
theorem c4_ambiguous_escape_witness :
    (('t' : Char) = 'b' ∨ ('t' : Char) = 'f' ∨ ('t' : Char) = 'n' ∨ ('t' : Char) = 'r' ∨
      ('t' : Char) = 't') ∧
    ((fixGo ('\\' :: 't' :: String.data "heta\"") true
      = (if is_latex_command ('t' :: String.data "heta\"") then ['\\', '\\'] else ['\\'])
          ++ 't' :: fixGo (String.data "heta\"") true) ∧
    (is_latex_command ('t' :: String.data "heta\"") = true ↔
      ∃ cmd ∈ latexCmdsByFirst 't', cmd <+: ('t' :: String.data "heta\"") ∧
        ∀ d, (('t' :: String.data "heta\"").drop cmd.length).head? = some d →
          pyIsAlpha d = false) ∧
    fix_latex_json "\"\\theta\"" = "\"\\\\theta\"" ∧
    fix_latex_json "\"a\\tb\"" = "\"a\\tb\"" ∧
    fix_latex_json "\"a\\t.\"" = "\"a\\t.\"") :=
  ⟨by decide, c4_ambiguous_escape 't' (String.data "heta\"") (by decide)⟩

/-- Claim C8: on input that is already valid JSON with no LaTeX (every string
literal uses only the legal JSON escapes and no `bfnrt` escape is followed by
letters spelling a LaTeX table command), the repair filter returns the input
unchanged. -/
theorem c8_repair_id_on_valid_json (s : String)
    (h : jsonCleanNoLatex s.data false = true) : fix_latex_json s = s := by
  unfold fix_latex_json
  rw [fixGo_eq_of_clean s.data false h]

/-- Witness for `c8_repair_id_on_valid_json` on a concrete valid JSON text
containing objects, escapes, a unicode escape and a tab escape. -/
theorem c8_repair_id_on_valid_json_witness :
    jsonCleanNoLatex
        (String.data "[\x7b\"a\": \"x \\\"q\\\" \\u0041 \\n done\", \"n\": 12\x7d]") false
      = true ∧
    fix_latex_json "[\x7b\"a\": \"x \\\"q\\\" \\u0041 \\n done\", \"n\": 12\x7d]"
      = "[\x7b\"a\": \"x \\\"q\\\" \\u0041 \\n done\", \"n\": 12\x7d]" :=
  ⟨by decide,
    c8_repair_id_on_valid_json "[\x7b\"a\": \"x \\\"q\\\" \\u0041 \\n done\", \"n\": 12\x7d]"
      (by decide)⟩


/-- The base extraction prompt `PROMPT` from `gemini_service.py` (a raw
Python string: backslashes are literal). -/
def PROMPT : String :=
  "You are converting a photograph of a chalkboard/whiteboard into clean, well-typeset lecture notes that read like a continuous document (similar to LaTeX lecture notes).\n" ++
  "\n" ++
  "RULES:\n" ++
  "1. Extract ONLY what is clearly written on the board. Do NOT hallucinate or add content.\n" ++
  "2. If handwriting is unclear or a person/object is blocking part of the board, omit the blocked content entirely rather than guessing. It is MUCH better to leave content out than to produce incorrect or garbled notes.\n" ++
  "3. ALL math must be wrapped in LaTeX delimiters:\n" ++
  "   - Inline math: $...$  (e.g. $x^2 + y^2 = r^2$)\n" ++
  "   - Display math: $$...$$ (e.g. $$\\int_0^1 f(x)\\,dx$$)\n" ++
  "   - NEVER write math as plain text. Even simple variables like x, y, z should be $x$, $y$, $z$ when used mathematically.\n" ++
  "   - NEVER duplicate content as both LaTeX and plain text.\n" ++
  "4. Write the content as flowing prose with embedded math, like you would in a LaTeX document. Use complete sentences where appropriate. Sections should read naturally one after the other as a continuous document.\n" ++
  "5. Group related content together as it appears on the board. One block of work = one section.\n" ++
  "   - CRITICAL: NEVER split a sentence or paragraph across multiple blocks. If text forms a continuous thought (e.g. \"The function f(x) = sin(x) is an example of a periodic function. It repeats every 2π.\"), it MUST be in a SINGLE block, not split into separate blocks.\n" ++
  "   - A block should contain COMPLETE sentences/paragraphs. Each block should end with proper punctuation (period, colon, etc.), not trail off mid-sentence.\n" ++
  "   - When in doubt, MERGE content into fewer, larger blocks rather than creating many small ones.\n" ++
  "6. Use newlines (\\n) to separate paragraphs within a section. Keep the writing clean and readable.\n" ++
  "7. For DIAGRAMS/FIGURES on the board:\n" ++
  "   - Set type to \"diagram\"\n" ++
  "   - In \"content\", write a detailed description of the diagram suitable for an image generation model to recreate it. Describe shapes, axes, labels, arrows, positions, and relationships clearly.\n" ++
  "   - Add a short \"caption\" field.\n" ++
  "\n" ++
  "OUTPUT: Return ONLY a JSON array. No markdown, no explanation.\n" ++
  "\n" ++
  "CRITICAL: In JSON strings, every LaTeX backslash must be escaped as \\\\. Write \\\\frac not \\frac, \\\\vec not \\vec, \\\\lambda not \\lambda.\n" ++
  "\n" ++
  "Each element:\n" ++
  "\x7b\n" ++
  "  \"section_id\": \"block-1\",\n" ++
  "  \"type\": \"definition\" | \"equation\" | \"step\" | \"note\" | \"diagram\",\n" ++
  "  \"content\": \"text with $inline$ and $$display$$ LaTeX\"\n" ++
  "\x7d\n" ++
  "\n" ++
  "For diagrams: content is a detailed text description of the diagram. Add a \"caption\" field.\n" ++
  "\n" ++
  "Example:\n" ++
  "[\n" ++
  "  \x7b\n" ++
  "    \"section_id\": \"block-1\",\n" ++
  "    \"type\": \"note\",\n" ++
  "    \"content\": \"Plane Equations\\n\\nConsider a point on the plane $(a, b, c)$ and an arbitrary point $P = (x, y, z)$.\\n\\nThe normal vector $\\\\vec\x7bn\x7d$ is perpendicular to the plane. We can express the equation of the plane as:\\n\\n$$\\\\vec\x7bn\x7d \\\\cdot (P - P_0) = 0$$\"\n" ++
  "  \x7d,\n" ++
  "  \x7b\n" ++
  "    \"section_id\": \"diag-1\",\n" ++
  "    \"type\": \"diagram\",\n" ++
  "    \"content\": \"A 2D coordinate system with x-axis (horizontal) and y-axis (vertical). A point labeled P₀ is marked at the center of a shaded plane. From P₀, a bold arrow points upward and to the right, labeled \x27n\x27 (the normal vector). The plane is shown as a tilted rectangle passing through P₀, perpendicular to the normal vector.\",\n" ++
  "    \"caption\": \"Plane with normal vector\"\n" ++
  "  \x7d\n" ++
  "]"

def multiFrameBlock : String :=
  "\n" ++
  "\n" ++
  "MULTI-FRAME CONTEXT:\n" ++
  "You are being given TWO images of the same board taken moments apart.\n" ++
  "- IMAGE 1 (first) is a PREVIOUS capture of the board.\n" ++
  "- IMAGE 2 (second) is the CURRENT/LATEST capture.\n" ++
  "\n" ++
  "A person (the professor) may be blocking parts of the board in one or both frames.\n" ++
  "RULES for multi-frame merging:\n" ++
  "- Use the CLEAREST view of each section across both frames.\n" ++
  "- If content is visible in the previous frame but blocked in the current frame, use the previous frame\x27s version.\n" ++
  "- If content is visible in the current frame but was blocked before, use the current frame.\n" ++
  "- If content appears in BOTH frames, prefer the current frame (it may have updates).\n" ++
  "- If content is blocked in BOTH frames, omit it entirely — do NOT guess.\n" ++
  "- NEVER produce garbled or half-complete sections. If you cannot read something clearly in either frame, leave it out.\n" ++
  "- For diagrams: if the diagram is partially blocked in the current frame but was clear in the previous frame, describe the diagram based on the previous frame."

/-- One existing-section summary as returned by
`get_existing_sections_summary` and consumed by `_build_prompt`
(`section_id`, `type`, `content_preview`). -/
structure Summary where
  section_id : String
  type : String
  content_preview : String
  deriving Repr, DecidableEq

/-- Value of a non-empty ASCII digit string. -/
def digitsToNat (ds : List Char) : Nat :=
  ds.foldl (fun acc c => acc * 10 + (c.toNat - 48)) 0

/-- Python `int(s)` on the strings reaching it here: optional surrounding
whitespace, an optional sign, then one or more ASCII digits; anything else
raises `ValueError`, modelled as `none`.  (Python also accepts underscore
digit grouping and non-ASCII digits; no id in this system produces those.) -/
def pyIntParse (s : List Char) : Option Int :=
  let t := pyLstripL (pyRstripL s)
  match t with
  | '+' :: ds => if !ds.isEmpty && ds.all Char.isDigit then some (digitsToNat ds) else none
  | '-' :: ds => if !ds.isEmpty && ds.all Char.isDigit then some (-(digitsToNat ds : Int)) else none
  | ds => if !ds.isEmpty && ds.all Char.isDigit then some (digitsToNat ds) else none

/-- The numeric suffix the `_build_prompt` loop reads from a `block-` id:
`int(sid.split("-", 1)[1])` guarded by `sid.startswith("block-")`, with
`ValueError` as `none`. -/
def blockSuffix (sid : String) : Option Int :=
  if pyStartsWith sid "block-" then pyIntParse (sid.data.drop 6) else none

/-- The numeric suffix the `_build_prompt` loop reads from a `diag-` id (the
`elif` branch: never taken for an id that starts with `block-`). -/
def diagSuffix (sid : String) : Option Int :=
  if pyStartsWith sid "block-" then none
  else if pyStartsWith sid "diag-" then pyIntParse (sid.data.drop 5) else none

/-- The running-maximum fold shared by the `max_block` / `max_diag`
computation in `_build_prompt`. -/
def foldlMax (f : String → Option Int) (secs : List Summary) (a : Int) : Int :=
  secs.foldl
    (fun acc sec =>
      match f sec.section_id with
      | some n => max acc n
      | none => acc) a

/-- The `max_block` computed by `_build_prompt` (starts at 0). -/
def maxBlockOf (secs : List Summary) : Int := foldlMax blockSuffix secs 0

/-- The `max_diag` computed by `_build_prompt` (starts at 0). -/
def maxDiagOf (secs : List Summary) : Int := foldlMax diagSuffix secs 0

/-- The `sections_block` summary lines of `_build_prompt`:
one line `  - {section_id} (type={type}): "{content_preview}"` per existing
section, joined by newlines. -/
def sectionsBlock (secs : List Summary) : String :=
  String.intercalate "\n"
    (secs.map (fun sec =>
      "  - " ++ sec.section_id ++ " (type=" ++ sec.type ++ "): \"" ++ sec.content_preview ++ "\""))

/-- The context text of `_build_prompt` before the numbering instruction. -/
def ctxPre (secs : List Summary) : String :=
  "\n\nIMPORTANT — EXISTING NOTES CONTEXT:\n" ++
  "The following sections already exist for this lecture:\n" ++ sectionsBlock secs ++ "\n\n" ++
  "- If the board still shows the SAME content as an existing section, you MUST reuse that section_id so it updates in place.\n" ++
  "- Only create a NEW section_id for content that is genuinely new and not covered by any existing section.\n"

/-- The numbering-continuation instruction of `_build_prompt`. -/
def numberingInstr (secs : List Summary) : String :=
  "- For new content, continue numbering from " ++
  "block-" ++ toString (maxBlockOf secs + 1) ++ " / diag-" ++ toString (maxDiagOf secs + 1) ++
  ".\n"

/-- The context text of `_build_prompt` after the numbering instruction. -/
def ctxPost : String :=
  "- Do NOT restart numbering from block-1.\n" ++
  "- If a section\x27s content is BLOCKED by a person in the current frame, " ++
  "reuse the existing section_id with the SAME content (do NOT replace good content with partial/garbled content)."

/-- Embedding of `_build_prompt(existing_sections, has_previous_image)` from
`gemini_service.py`. -/
def build_prompt (existing_sections : List Summary) (has_previous_image : Bool) : String :=
  let base := if has_previous_image then PROMPT ++ multiFrameBlock else PROMPT
  if existing_sections.isEmpty then base
  else base ++ (ctxPre existing_sections ++ numberingInstr existing_sections ++ ctxPost)

example : maxBlockOf [⟨"block-1", "note", ""⟩, ⟨"block-2", "note", ""⟩, ⟨"diag-1", "diagram", ""⟩] = 2 := by decide
example : maxDiagOf [⟨"block-1", "note", ""⟩, ⟨"block-2", "note", ""⟩, ⟨"diag-1", "diagram", ""⟩] = 1 := by decide
example : numberingInstr [⟨"block-1", "note", ""⟩, ⟨"block-2", "note", ""⟩, ⟨"diag-1", "diagram", ""⟩]
    = "- For new content, continue numbering from block-3 / diag-2.\n" := by decide
example : blockSuffix "block-7" = some 7 := by decide
example : blockSuffix "block-x" = none := by decide
example : diagSuffix "diag-41" = some 41 := by decide
example : diagSuffix "other-3" = none := by decide

/-- Substring containment at the character level. -/
def containsStr (s t : String) : Prop := ∃ a b : List Char, s.data = a ++ t.data ++ b

/-- Characterization of M as "the maximum numeric suffix, 0 when none": M is
at least 0, bounds every suffix a summary yields under `f`, and is either 0
or attained by some summary. -/
def IsMaxSuffix (f : String → Option Int) (secs : List Summary) (M : Int) : Prop :=
  0 ≤ M ∧
  (∀ sec ∈ secs, ∀ n, f sec.section_id = some n → n ≤ M) ∧
  (M = 0 ∨ ∃ sec ∈ secs, f sec.section_id = some M)

theorem foldlMax_spec (f : String → Option Int) (secs : List Summary) :
    ∀ (a : Int),
      a ≤ foldlMax f secs a ∧
      (∀ sec ∈ secs, ∀ n, f sec.section_id = some n → n ≤ foldlMax f secs a) ∧
      (foldlMax f secs a = a ∨ ∃ sec ∈ secs, f sec.section_id = some (foldlMax f secs a)) := by
  induction secs with
  | nil => intro a; exact ⟨le_refl _, by simp, Or.inl rfl⟩
  | cons sec rest ih =>
    intro a
    have step : foldlMax f (sec :: rest) a
        = foldlMax f rest (match f sec.section_id with
            | some n => max a n
            | none => a) := rfl
    cases hf : f sec.section_id with
    | none =>
      have ih' := ih a
      rw [step, hf]
      refine ⟨ih'.1, ?_, ?_⟩
      · intro t ht n hn
        rcases List.mem_cons.mp ht with rfl | ht
        · rw [hf] at hn; cases hn
        · exact ih'.2.1 t ht n hn
      · rcases ih'.2.2 with h | ⟨t, ht, hval⟩
        · exact Or.inl h
        · exact Or.inr ⟨t, by simp [ht], hval⟩
    | some n =>
      have ih' := ih (max a n)
      rw [step, hf]
      refine ⟨le_trans (le_max_left _ _) ih'.1, ?_, ?_⟩
      · intro t ht m hm
        rcases List.mem_cons.mp ht with rfl | ht
        · rw [hf] at hm
          cases hm
          exact le_trans (le_max_right _ _) ih'.1
        · exact ih'.2.1 t ht m hm
      · rcases ih'.2.2 with h | ⟨t, ht, hval⟩
        · rcases max_choice a n with hmax | hmax
          · exact Or.inl (by rw [h, hmax])
          · exact Or.inr ⟨sec, by simp, by rw [hf, h, hmax]⟩
        · exact Or.inr ⟨t, by simp [ht], hval⟩

set_option maxRecDepth 8192 in
/-- Claim C7: for every non-empty existing-section list the built prompt
instructs continuation from `block-(M+1)` and `diag-(D+1)` where M and D are
the maximum numeric suffixes over the `block-N` / `diag-N` ids (other ids
ignored, 0 when none), and instructs never restarting from `block-1`; for the
concrete ids block-1, block-2, diag-1 it instructs continuation from
`block-3 / diag-2`. -/
theorem c7_numbering_continuation (secs : List Summary) (hp : Bool) (h : secs ≠ []) :
    IsMaxSuffix blockSuffix secs (maxBlockOf secs) ∧
    IsMaxSuffix diagSuffix secs (maxDiagOf secs) ∧
    containsStr (build_prompt secs hp)
      ("- For new content, continue numbering from block-" ++ toString (maxBlockOf secs + 1) ++
        " / diag-" ++ toString (maxDiagOf secs + 1) ++ ".\n") ∧
    containsStr (build_prompt secs hp) "- Do NOT restart numbering from block-1.\n" ∧
    containsStr
      (build_prompt [⟨"block-1", "note", ""⟩, ⟨"block-2", "note", ""⟩, ⟨"diag-1", "diagram", ""⟩]
        hp)
      "continue numbering from block-3 / diag-2" := by
  have hb := foldlMax_spec blockSuffix secs 0
  have hd := foldlMax_spec diagSuffix secs 0
  have hsplit : build_prompt secs hp
      = (if hp then PROMPT ++ multiFrameBlock else PROMPT) ++
        (ctxPre secs ++ numberingInstr secs ++ ctxPost) := by
    unfold build_prompt
    rw [if_neg]
    simp [List.isEmpty_iff, h]
  refine ⟨⟨hb.1, hb.2.1, ?_⟩, ⟨hd.1, hd.2.1, ?_⟩, ?_, ?_, ?_⟩
  · rcases hb.2.2 with h0 | hat
    · exact Or.inl h0
    · exact Or.inr hat
  · rcases hd.2.2 with h0 | hat
    · exact Or.inl h0
    · exact Or.inr hat
  · refine ⟨((if hp then PROMPT ++ multiFrameBlock else PROMPT) ++ ctxPre secs).data,
      ctxPost.data, ?_⟩
    rw [hsplit]
    simp [numberingInstr]
  · refine ⟨((if hp then PROMPT ++ multiFrameBlock else PROMPT) ++ ctxPre secs ++
      numberingInstr secs).data,
      ("- If a section\x27s content is BLOCKED by a person in the current frame, " ++
        "reuse the existing section_id with the SAME content (do NOT replace good content with partial/garbled content).").data, ?_⟩
    rw [hsplit]
    simp [ctxPost]
  · have hnum : numberingInstr
        [⟨"block-1", "note", ""⟩, ⟨"block-2", "note", ""⟩, ⟨"diag-1", "diagram", ""⟩]
        = "- For new content, " ++ "continue numbering from block-3 / diag-2" ++ ".\n" := by
      decide
    have hsplit2 : build_prompt
        [⟨"block-1", "note", ""⟩, ⟨"block-2", "note", ""⟩, ⟨"diag-1", "diagram", ""⟩] hp
        = (if hp then PROMPT ++ multiFrameBlock else PROMPT) ++
          (ctxPre [⟨"block-1", "note", ""⟩, ⟨"block-2", "note", ""⟩, ⟨"diag-1", "diagram", ""⟩] ++
            numberingInstr
              [⟨"block-1", "note", ""⟩, ⟨"block-2", "note", ""⟩, ⟨"diag-1", "diagram", ""⟩] ++
            ctxPost) := by
      unfold build_prompt
      rw [if_neg]
      simp [List.isEmpty_iff]
    refine ⟨((if hp then PROMPT ++ multiFrameBlock else PROMPT) ++
        ctxPre [⟨"block-1", "note", ""⟩, ⟨"block-2", "note", ""⟩, ⟨"diag-1", "diagram", ""⟩] ++
        "- For new content, ").data,
      (".\n" ++ ctxPost).data, ?_⟩
    rw [hsplit2, hnum]
    simp only [String.data_append, List.append_assoc]

/-- Witness for `c7_numbering_continuation` at the spec's example ids. -/
theorem c7_numbering_continuation_witness :
    (([⟨"block-1", "note", ""⟩, ⟨"block-2", "note", ""⟩, ⟨"diag-1", "diagram", ""⟩] :
        List Summary) ≠ []) ∧
    (IsMaxSuffix blockSuffix
        [⟨"block-1", "note", ""⟩, ⟨"block-2", "note", ""⟩, ⟨"diag-1", "diagram", ""⟩]
        (maxBlockOf [⟨"block-1", "note", ""⟩, ⟨"block-2", "note", ""⟩, ⟨"diag-1", "diagram", ""⟩]) ∧
    IsMaxSuffix diagSuffix
        [⟨"block-1", "note", ""⟩, ⟨"block-2", "note", ""⟩, ⟨"diag-1", "diagram", ""⟩]
        (maxDiagOf [⟨"block-1", "note", ""⟩, ⟨"block-2", "note", ""⟩, ⟨"diag-1", "diagram", ""⟩]) ∧
    containsStr
      (build_prompt [⟨"block-1", "note", ""⟩, ⟨"block-2", "note", ""⟩, ⟨"diag-1", "diagram", ""⟩]
        false)
      ("- For new content, continue numbering from block-" ++
        toString (maxBlockOf
          [⟨"block-1", "note", ""⟩, ⟨"block-2", "note", ""⟩, ⟨"diag-1", "diagram", ""⟩] + 1) ++
        " / diag-" ++
        toString (maxDiagOf
          [⟨"block-1", "note", ""⟩, ⟨"block-2", "note", ""⟩, ⟨"diag-1", "diagram", ""⟩] + 1) ++
        ".\n") ∧
    containsStr
      (build_prompt [⟨"block-1", "note", ""⟩, ⟨"block-2", "note", ""⟩, ⟨"diag-1", "diagram", ""⟩]
        false)
      "- Do NOT restart numbering from block-1.\n" ∧
    containsStr
      (build_prompt [⟨"block-1", "note", ""⟩, ⟨"block-2", "note", ""⟩, ⟨"diag-1", "diagram", ""⟩]
        false)
      "continue numbering from block-3 / diag-2") :=
  ⟨by decide,
    c7_numbering_continuation
      [⟨"block-1", "note", ""⟩, ⟨"block-2", "note", ""⟩, ⟨"diag-1", "diagram", ""⟩]
      false (by decide)⟩

/-- Dynamically-typed Python value, as needed by the `upload_image` handler
in `main.py`: dicts, lists, tuples, strings, ints, bytes and `None`. -/
inductive PyVal where
  | none : PyVal
  | str : String → PyVal
  | int : Int → PyVal
  | bytes : String → PyVal
  | list : List PyVal → PyVal
  | tuple : List PyVal → PyVal
  | dict : List (String × PyVal) → PyVal

/-- Python truthiness for the values above. -/
def pyTruthy : PyVal → Bool
  | .none => false
  | .str s => !s.isEmpty
  | .int n => n != 0
  | .bytes b => !b.isEmpty
  | .list xs => !xs.isEmpty
  | .tuple xs => !xs.isEmpty
  | .dict kvs => !kvs.isEmpty

/-- Python `v.pop(k, None)` with two arguments: only dicts accept it; on a
list (or any other receiver) Python raises
`TypeError: pop expected at most 1 argument, got 2`. -/
def pyPop (v : PyVal) (k : String) : Except String (PyVal × PyVal) :=
  match v with
  | .dict kvs =>
    match kvs.lookup k with
    | some x => .ok (x, .dict (kvs.filter (fun kv => kv.1 != k)))
    | none => .ok (.none, .dict kvs)
  | _ => .error "TypeError: pop expected at most 1 argument, got 2"

/-- Python `v.get(k)` (dicts only; `None` when missing). -/
def pyGet (v : PyVal) (k : String) : Except String PyVal :=
  match v with
  | .dict kvs => .ok ((kvs.lookup k).getD .none)
  | _ => .error "AttributeError: get"

/-- Python `v[k]` on a dict (KeyError when missing). -/
def pyIndex (v : PyVal) (k : String) : Except String PyVal :=
  match v with
  | .dict kvs =>
    match kvs.lookup k with
    | some x => .ok x
    | none => .error ("KeyError: " ++ k)
  | _ => .error "TypeError: not subscriptable"

/-- Python `v[k] = x` on a dict (replaces in place or appends a new key). -/
def pySetItem (v : PyVal) (k : String) (x : PyVal) : Except String PyVal :=
  match v with
  | .dict kvs =>
    if kvs.any (fun kv => kv.1 == k) then
      .ok (.dict (kvs.map (fun kv => if kv.1 == k then (k, x) else kv)))
    else
      .ok (.dict (kvs ++ [(k, x)]))
  | _ => .error "TypeError: does not support item assignment"

/-- Python `for x in v`: lists and tuples yield their elements. -/
def pyIter : PyVal → Except String (List PyVal)
  | .list xs => .ok xs
  | .tuple xs => .ok xs
  | _ => .error "TypeError: object is not iterable"

/-- Expect a Python `str`. -/
def expectStr : PyVal → Except String String
  | .str s => .ok s
  | _ => .error "TypeError: expected str"

/-- Expect an optional Python `str` (for `caption` / `image_url`). -/
def expectOptStr : PyVal → Except String (Option String)
  | .none => .ok Option.none
  | .str s => .ok (some s)
  | _ => .error "TypeError: expected str or None"

/-- One row of the `lecture_notes` table, as written by `upsert_notes` in
`supabase_client.py`. -/
structure Row where
  room_id : String
  section_id : String
  type : String
  content : String
  caption : Option String
  image_url : Option String
  deriving Repr, DecidableEq

/-- Embedding of `get_existing_sections_summary(room_id)` from
`supabase_client.py`: for each stored row of the room (in insertion order),
a dict with exactly the keys `section_id`, `type` and `content_preview`
(the first 150 characters of the content) — and no `image_url` key. -/
def get_existing_sections_summary (room_id : String) (store : List Row) : List PyVal :=
  (store.filter (fun r => r.room_id == room_id)).map (fun r =>
    .dict [("section_id", .str r.section_id), ("type", .str r.type),
           ("content_preview", .str ⟨r.content.data.take 150⟩)])

/-- The `existing_images` dict comprehension of `upload_image` in `main.py`:
`{s["section_id"]: s["image_url"] for s in existing_sections if s.get("image_url")}`. -/
def existingImages : List PyVal → Except String (List (String × PyVal))
  | [] => .ok []
  | s :: rest => do
    let himg ← pyGet s "image_url"
    let tail ← existingImages rest
    if pyTruthy himg then
      let sid ← pyIndex s "section_id"
      let url ← pyIndex s "image_url"
      match sid with
      | .str sidStr => .ok ((sidStr, url) :: tail)
      | _ => .error "TypeError: unhashable key"
    else
      .ok tail

/-- The image-fallback step of the `upload_image` loop in `main.py`:
`existing_url = existing_images.get(section.get("section_id"));
if existing_url: section["image_url"] = existing_url`. -/
def fallbackImage (imgs : List (String × PyVal)) (s : PyVal) : Except String PyVal := do
  let sid ← pyGet s "section_id"
  match sid with
  | .str sidStr =>
    match imgs.lookup sidStr with
    | some url => if pyTruthy url then pySetItem s "image_url" url else .ok s
    | none => .ok s
  | _ => .ok s

/-- One iteration of the `for section in sections` loop of `upload_image` in
`main.py`: pop the in-flight image fields, and either upload freshly
generated bytes (`uploadDiagram` models `upload_diagram`, with `.error` for a
raised exception; uuid filename and mime type are abstracted away) or fall
back to a previously stored image for this id. -/
def sectionTransform (imgs : List (String × PyVal))
    (uploadDiagram : PyVal → Except String String) (sectionV : PyVal) :
    Except String PyVal := do
  let r1 ← pyPop sectionV "_image_bytes"
  let r2 ← pyPop r1.2 "_image_ext"
  let img_bytes := r1.1
  let img_ext := r2.1
  if pyTruthy img_bytes && pyTruthy img_ext then
    match uploadDiagram img_bytes with
    | .ok url => pySetItem r2.2 "image_url" (.str url)
    | .error _ => fallbackImage imgs r2.2
  else
    fallbackImage imgs r2.2

/-- Error-propagating map over section values. -/
def mapExcept (f : PyVal → Except String PyVal) : List PyVal → Except String (List PyVal)
  | [] => .ok []
  | x :: xs => do
    let y ← f x
    let ys ← mapExcept f xs
    .ok (y :: ys)

/-- Row built from one section dict by `upsert_notes` in `supabase_client.py`
(`s["section_id"]`, `s["type"]`, `s["content"]`, `s.get("caption")`,
`s.get("image_url")`). -/
def rowOfSection (room_id : String) (s : PyVal) : Except String Row := do
  let sid ← pyIndex s "section_id" >>= expectStr
  let ty ← pyIndex s "type" >>= expectStr
  let content ← pyIndex s "content" >>= expectStr
  let caption ← pyGet s "caption" >>= expectOptStr
  let image_url ← pyGet s "image_url" >>= expectOptStr
  .ok ⟨room_id, sid, ty, content, caption, image_url⟩

/-- The database upsert keyed `on_conflict="room_id,section_id"`: replace the
matching row in place, or append. -/
def upsertRows (store : List Row) (rows : List Row) : List Row :=
  rows.foldl
    (fun st r =>
      if st.any (fun x => x.room_id == r.room_id && x.section_id == r.section_id) then
        st.map (fun x =>
          if x.room_id == r.room_id && x.section_id == r.section_id then r else x)
      else st ++ [r])
    store

/-- Embedding of `upsert_notes(room_id, sections)` from `supabase_client.py`. -/
def upsert_notes (room_id : String) (sections : List PyVal) (store : List Row) :
    Except String (List Row) := do
  let rows ← sections.foldrM (fun s acc => do
    let r ← rowOfSection room_id s
    .ok (r :: acc)) []
  .ok (upsertRows store rows)

/-- Embedding of `get_notes_for_room(room_id)` from `supabase_client.py`:
row dicts in insertion-id order with highlight counts joined from the
highlights table (modelled as an association list). -/
def get_notes_for_room (room_id : String) (store : List Row)
    (highlights : List (String × Nat)) : PyVal :=
  .list ((store.enum.filter (fun p => p.2.room_id == room_id)).map (fun p =>
    .dict [("id", .int p.1), ("section_id", .str p.2.section_id),
           ("type", .str p.2.type), ("content", .str p.2.content),
           ("caption", (p.2.caption.map PyVal.str).getD .none),
           ("image_url", (p.2.image_url.map PyVal.str).getD .none),
           ("highlight_count", .int (Int.ofNat ((highlights.lookup p.2.section_id).getD 0))),
           ("created_at", .none)]))

/-- Rebuild the container that was iterated (`sections` is mutated element
by element in place and then returned whole). -/
def rebuildContainer : PyVal → List PyVal → PyVal
  | .list _, elems => .list elems
  | .tuple _, elems => .tuple elems
  | v, _ => v

/-- The value `send_image_to_gemini` returns (`gemini_service.py` line
`return sections, consumed_ids`): a 2-tuple of the merged section list and
the consumed-id list. -/
def sendImageResult (merged : List PyVal) (consumed : List String) : PyVal :=
  .tuple [.list merged, .list (consumed.map PyVal.str)]

/-- A `Sec` as the section dict the extraction pipeline produces. -/
def Sec.toPy (s : Sec) : PyVal :=
  .dict [("section_id", .str s.section_id), ("type", .str s.type),
         ("content", .str s.content)]

/-- Embedding of the body of `upload_image` in `main.py` from the point where
the room lock is held: read the existing-section summaries, bind the value
returned by `send_image_to_gemini` to `sections` (exactly as the source
does — without unpacking the pair), build `existing_images`, run the
per-section image loop, upsert, read the notes back and answer
`{"sections": sections, "notes": notes}`.  The store is returned alongside;
on an uncaught exception (`.error`) the store is whatever had been committed
(no write happens before the loop, and the loop precedes the upsert). -/
def upload_image (store : List Row) (room_id : String) (geminiResult : PyVal)
    (uploadDiagram : PyVal → Except String String)
    (highlights : List (String × Nat)) :
    Except String PyVal × List Row :=
  let existing_sections := get_existing_sections_summary room_id store
  match existingImages existing_sections with
  | .error e => (.error e, store)
  | .ok imgs =>
    match pyIter geminiResult with
    | .error e => (.error e, store)
    | .ok elems =>
      match mapExcept (sectionTransform imgs uploadDiagram) elems with
      | .error e => (.error e, store)
      | .ok elems2 =>
        let sectionsOut := rebuildContainer geminiResult elems2
        match upsert_notes room_id elems2 store with
        | .error e => (.error e, store)
        | .ok store2 =>
          let notes := get_notes_for_room room_id store2 highlights
          (.ok (.dict [("sections", sectionsOut), ("notes", notes)]), store2)

theorem existingImages_map (rows : List Row) :
    existingImages (rows.map (fun r =>
      PyVal.dict [("section_id", .str r.section_id), ("type", .str r.type),
        ("content_preview", .str ⟨r.content.data.take 150⟩)])) = .ok [] := by
  induction rows with
  | nil => rfl
  | cons r rest ih =>
    simp only [List.map_cons, existingImages, pyGet, List.lookup, pyTruthy]
    simp only [show (("image_url" == "section_id") : Bool) = false from rfl]
    simp [ih, Bind.bind, Except.bind, pyTruthy]

/-- The existing-sections summary carries no `image_url` key, so the
`existing_images` comprehension of `upload_image` is always empty. -/
theorem existingImages_of_summary (room_id : String) (store : List Row) :
    existingImages (get_existing_sections_summary room_id store) = .ok [] := by
  unfold get_existing_sections_summary
  exact existingImages_map _

/-- Claim C1: for every upload whose extraction result parses (modelled by
`send_image_to_gemini` returning its `(sections, consumed_ids)` pair), the
handler binds that pair — un-unpacked — as `sections`, and the first
iteration of the image loop calls `.pop("_image_bytes", None)` on a list,
raising TypeError: the request fails, nothing is upserted, the store is
unchanged, and no `{sections, notes}` response is produced. -/
theorem c1_upload_crashes_on_tuple (store : List Row) (room_id : String)
    (merged : List PyVal) (consumed : List String)
    (up : PyVal → Except String String) (hl : List (String × Nat)) :
    upload_image store room_id (sendImageResult merged consumed) up hl
      = (.error "TypeError: pop expected at most 1 argument, got 2", store) := by
  unfold upload_image
  simp only [existingImages_of_summary]
  rfl

/-- Claim C2: a merge that consumes `block-2` (fold of section B into A)
leaves B's row in the store: the handler never deletes it — the model of the
handler contains no delete operation at all — and in fact the upload crashes
before any write, so the store after the upload still holds B's row
unchanged. -/
theorem c2_consumed_row_never_deleted (up : PyVal → Except String String) :
    (merge_sections [⟨"block-1", "note", "f is continuous and"⟩,
        ⟨"block-2", "note", "differentiable."⟩]).2 = ["block-2"] ∧
    (upload_image
        [⟨"r1", "block-1", "note", "f is continuous and", Option.none, Option.none⟩,
         ⟨"r1", "block-2", "note", "differentiable.", Option.none, Option.none⟩]
        "r1"
        (sendImageResult
          ((merge_sections [⟨"block-1", "note", "f is continuous and"⟩,
              ⟨"block-2", "note", "differentiable."⟩]).1.map Sec.toPy)
          (merge_sections [⟨"block-1", "note", "f is continuous and"⟩,
              ⟨"block-2", "note", "differentiable."⟩]).2)
        up []).1
      = .error "TypeError: pop expected at most 1 argument, got 2" ∧
    (upload_image
        [⟨"r1", "block-1", "note", "f is continuous and", Option.none, Option.none⟩,
         ⟨"r1", "block-2", "note", "differentiable.", Option.none, Option.none⟩]
        "r1"
        (sendImageResult
          ((merge_sections [⟨"block-1", "note", "f is continuous and"⟩,
              ⟨"block-2", "note", "differentiable."⟩]).1.map Sec.toPy)
          (merge_sections [⟨"block-1", "note", "f is continuous and"⟩,
              ⟨"block-2", "note", "differentiable."⟩]).2)
        up []).2
      = [⟨"r1", "block-1", "note", "f is continuous and", Option.none, Option.none⟩,
         ⟨"r1", "block-2", "note", "differentiable.", Option.none, Option.none⟩] ∧
    (⟨"r1", "block-2", "note", "differentiable.", Option.none, Option.none⟩ : Row)
      ∈ (upload_image
        [⟨"r1", "block-1", "note", "f is continuous and", Option.none, Option.none⟩,
         ⟨"r1", "block-2", "note", "differentiable.", Option.none, Option.none⟩]
        "r1"
        (sendImageResult
          ((merge_sections [⟨"block-1", "note", "f is continuous and"⟩,
              ⟨"block-2", "note", "differentiable."⟩]).1.map Sec.toPy)
          (merge_sections [⟨"block-1", "note", "f is continuous and"⟩,
              ⟨"block-2", "note", "differentiable."⟩]).2)
        up []).2 := by
  refine ⟨by decide, rfl, rfl, ?_⟩
  have h : (upload_image
        [⟨"r1", "block-1", "note", "f is continuous and", Option.none, Option.none⟩,
         ⟨"r1", "block-2", "note", "differentiable.", Option.none, Option.none⟩]
        "r1"
        (sendImageResult
          ((merge_sections [⟨"block-1", "note", "f is continuous and"⟩,
              ⟨"block-2", "note", "differentiable."⟩]).1.map Sec.toPy)
          (merge_sections [⟨"block-1", "note", "f is continuous and"⟩,
              ⟨"block-2", "note", "differentiable."⟩]).2)
        up []).2
      = [⟨"r1", "block-1", "note", "f is continuous and", Option.none, Option.none⟩,
         ⟨"r1", "block-2", "note", "differentiable.", Option.none, Option.none⟩] := rfl
  rw [h]
  simp

/-- Claim C9: the existing-sections summary never carries an `image_url`
(so the documented fallback to a previously stored image can never fire),
and an upload whose diagram section lacks generated image bytes still fails
as a whole with the tuple TypeError instead of succeeding; the per-section
loop body itself, run on such a section with the (always empty) image map,
would leave the section without any `image_url`. -/
theorem c9_diagram_failure_not_recovered (up : PyVal → Except String String)
    (hl : List (String × Nat)) (store : List Row) (room_id : String) :
    existingImages (get_existing_sections_summary room_id store) = .ok [] ∧
    sectionTransform [] up
        (.dict [("section_id", .str "diag-1"), ("type", .str "diagram"),
                ("content", .str "A circle."), ("caption", .str "c")])
      = .ok (.dict [("section_id", .str "diag-1"), ("type", .str "diagram"),
                ("content", .str "A circle."), ("caption", .str "c")]) ∧
    (upload_image store room_id
        (sendImageResult
          [.dict [("section_id", .str "diag-1"), ("type", .str "diagram"),
                  ("content", .str "A circle."), ("caption", .str "c")]] [])
        up hl).1
      = .error "TypeError: pop expected at most 1 argument, got 2" := by
  refine ⟨existingImages_of_summary room_id store, rfl, ?_⟩
  unfold upload_image
  simp only [existingImages_of_summary]
  rfl

/-- Phase of one upload task with respect to its room lock: before
`async with lock` (`idle`), lock acquired but summary not yet read
(`entered`), summary read and processing/writing (`active`), lock released
(`done`).  The body of `upload_image` reads the existing-sections summary as
its first statement under the lock and releases the lock when the `async
with` block exits, normally or by exception. -/
inductive TaskPhase where
  | idle | entered | active | done
  deriving DecidableEq, Repr

/-- One scheduling event of the cooperative (asyncio) execution: a task
acquires its room's lock, reads the room's stored rows (the value it
observes is recorded in the event), replaces the room's rows (covering
upserts and deletes performed while holding the lock), or releases the
lock. -/
inductive Act where
  | acquire (i : Nat)
  | read (i : Nat) (rows : List Row)
  | write (i : Nat) (rows : List Row)
  | release (i : Nat)
  deriving DecidableEq, Repr

/-- The task performing an event. -/
def actor : Act → Nat
  | .acquire i => i
  | .read i _ => i
  | .write i _ => i
  | .release i => i

/-- Global state of the cooperative execution: which task holds each room's
lock (`_room_locks`; `_get_room_lock` runs without awaiting, so
check-then-create is atomic under the single-threaded event loop and each
room has one canonical lock), each task's phase, and each room's stored
rows.  Maps are association lists where the most recent entry wins. -/
structure MState where
  locks : List (String × Option Nat)
  phase : List (Nat × TaskPhase)
  store : List (String × List Row)

/-- Current holder of a room's lock. -/
def lockOf (s : MState) (r : String) : Option Nat := (s.locks.lookup r).getD Option.none

/-- Current phase of a task. -/
def phaseOf (s : MState) (i : Nat) : TaskPhase := (s.phase.lookup i).getD .idle

/-- Current rows of a room. -/
def storeOf (s : MState) (r : String) : List Row := (s.store.lookup r).getD []

/-- State after a successful `acquire` by task `i`. -/
def acquireState (roomOf : Nat → String) (i : Nat) (s : MState) : MState :=
  { s with locks := (roomOf i, some i) :: s.locks, phase := (i, .entered) :: s.phase }

/-- State after a successful `read` by task `i`. -/
def readState (i : Nat) (s : MState) : MState :=
  { s with phase := (i, .active) :: s.phase }

/-- State after a `write` of `rows` by task `i`. -/
def writeState (roomOf : Nat → String) (i : Nat) (rows : List Row) (s : MState) : MState :=
  { s with store := (roomOf i, rows) :: s.store }

/-- State after a `release` by task `i`. -/
def releaseState (roomOf : Nat → String) (i : Nat) (s : MState) : MState :=
  { s with locks := (roomOf i, Option.none) :: s.locks, phase := (i, .done) :: s.phase }

/-- One scheduling step: `asyncio.Lock.acquire` succeeds only when the lock
is free; reading records exactly the current rows of the task's room;
writing requires the read to have happened (the handler builds its upsert
from the summary it read); release requires the task to be inside the
`async with` block. -/
def step (roomOf : Nat → String) (s : MState) : Act → Option MState
  | .acquire i =>
    if phaseOf s i = .idle ∧ lockOf s (roomOf i) = Option.none then
      some (acquireState roomOf i s)
    else Option.none
  | .read i rows =>
    if phaseOf s i = .entered ∧ rows = storeOf s (roomOf i) then
      some (readState i s)
    else Option.none
  | .write i rows =>
    if phaseOf s i = .active then
      some (writeState roomOf i rows s)
    else Option.none
  | .release i =>
    if phaseOf s i = .entered ∨ phaseOf s i = .active then
      some (releaseState roomOf i s)
    else Option.none

/-- Run a trace of scheduling events; `none` when some event was not enabled
(such a schedule cannot happen). -/
def runTrace (roomOf : Nat → String) (s : MState) : List Act → Option MState
  | [] => some s
  | a :: rest =>
    match step roomOf s a with
    | some s2 => runTrace roomOf s2 rest
    | Option.none => Option.none

/-- The initial state: no locks held, every task idle, all rooms empty. -/
def initState : MState := ⟨[], [], []⟩

/-- The events of a trace that touch one room. -/
def projRoom (roomOf : Nat → String) (tr : List Act) (r : String) : List Act :=
  tr.filter (fun a => roomOf (actor a) == r)

/-- Session structure of one room's event sequence: an `acquire` opens a
session; while a session of task `i` is open only events of `i` may occur;
`release` closes it.  Returns the holder of the session left open (if the
sequence is session-structured at all). -/
def sessionScan : Option Nat → List Act → Option (Option Nat)
  | cur, [] => some cur
  | Option.none, .acquire i :: rest => sessionScan (some i) rest
  | some i, .read j _ :: rest => if i = j then sessionScan (some i) rest else Option.none
  | some i, .write j _ :: rest => if i = j then sessionScan (some i) rest else Option.none
  | some i, .release j :: rest => if i = j then sessionScan Option.none rest else Option.none
  | _, _ => Option.none

/-- A task is inside its critical section. -/
def inCS (s : MState) (i : Nat) : Prop :=
  phaseOf s i = .entered ∨ phaseOf s i = .active

/-- Lock-phase coherence: a task inside its critical section holds its
room's lock and vice versa. -/
def LockInv (roomOf : Nat → String) (s : MState) : Prop :=
  (∀ i, inCS s i → lockOf s (roomOf i) = some i) ∧
  (∀ r i, lockOf s r = some i → roomOf i = r ∧ inCS s i)

theorem lookup_cons_eq {α β : Type} [DecidableEq α] (k k0 : α) (v : β) (l : List (α × β)) :
    ((k0, v) :: l).lookup k = if k = k0 then some v else l.lookup k := by
  by_cases h : k = k0
  · simp [List.lookup, h]
  · have hb : (k == k0) = false := beq_eq_false_iff_ne.mpr h
    simp [List.lookup, hb, h]

theorem lockOf_acquire (roomOf : Nat → String) (i : Nat) (s : MState) (r : String) :
    lockOf (acquireState roomOf i s) r = if r = roomOf i then some i else lockOf s r := by
  unfold lockOf acquireState
  rw [lookup_cons_eq]
  by_cases h : r = roomOf i <;> simp [h]

theorem phaseOf_acquire (roomOf : Nat → String) (i j : Nat) (s : MState) :
    phaseOf (acquireState roomOf i s) j = if j = i then .entered else phaseOf s j := by
  unfold phaseOf acquireState
  rw [lookup_cons_eq]
  by_cases h : j = i <;> simp [h]

theorem lockOf_read (i : Nat) (s : MState) (r : String) :
    lockOf (readState i s) r = lockOf s r := rfl

theorem phaseOf_read (i j : Nat) (s : MState) :
    phaseOf (readState i s) j = if j = i then .active else phaseOf s j := by
  unfold phaseOf readState
  rw [lookup_cons_eq]
  by_cases h : j = i <;> simp [h]

theorem lockOf_write (roomOf : Nat → String) (i : Nat) (rows : List Row) (s : MState)
    (r : String) : lockOf (writeState roomOf i rows s) r = lockOf s r := rfl

theorem phaseOf_write (roomOf : Nat → String) (i j : Nat) (rows : List Row) (s : MState) :
    phaseOf (writeState roomOf i rows s) j = phaseOf s j := rfl

theorem lockOf_release (roomOf : Nat → String) (i : Nat) (s : MState) (r : String) :
    lockOf (releaseState roomOf i s) r = if r = roomOf i then Option.none else lockOf s r := by
  unfold lockOf releaseState
  rw [lookup_cons_eq]
  by_cases h : r = roomOf i <;> simp [h]

theorem phaseOf_release (roomOf : Nat → String) (i j : Nat) (s : MState) :
    phaseOf (releaseState roomOf i s) j = if j = i then .done else phaseOf s j := by
  unfold phaseOf releaseState
  rw [lookup_cons_eq]
  by_cases h : j = i <;> simp [h]

theorem projRoom_cons (roomOf : Nat → String) (a : Act) (tr : List Act) (r : String) :
    projRoom roomOf (a :: tr) r =
      if roomOf (actor a) = r then a :: projRoom roomOf tr r else projRoom roomOf tr r := by
  unfold projRoom
  rw [List.filter_cons]
  by_cases h : roomOf (actor a) = r
  · simp [h]
  · simp [h]

theorem sessionScan_acquire (i : Nat) (l : List Act) :
    sessionScan Option.none (.acquire i :: l) = sessionScan (some i) l := rfl

theorem sessionScan_read (i : Nat) (rows : List Row) (l : List Act) :
    sessionScan (some i) (.read i rows :: l) = sessionScan (some i) l := by
  simp [sessionScan]

theorem sessionScan_write (i : Nat) (rows : List Row) (l : List Act) :
    sessionScan (some i) (.write i rows :: l) = sessionScan (some i) l := by
  simp [sessionScan]

theorem sessionScan_release (i : Nat) (l : List Act) :
    sessionScan (some i) (.release i :: l) = sessionScan Option.none l := by
  simp [sessionScan]

theorem runTrace_scan (roomOf : Nat → String) :
    ∀ (tr : List Act) (s0 s : MState),
      runTrace roomOf s0 tr = some s → LockInv roomOf s0 →
      LockInv roomOf s ∧
      ∀ r, sessionScan (lockOf s0 r) (projRoom roomOf tr r) = some (lockOf s r) := by
  intro tr
  induction tr with
  | nil =>
    intro s0 s h hinv
    simp only [runTrace, Option.some.injEq] at h
    subst h
    refine ⟨hinv, fun r => ?_⟩
    simp [projRoom, sessionScan]
  | cons a rest ih =>
    intro s0 s h hinv
    rw [runTrace] at h
    cases hstep : step roomOf s0 a with
    | none => rw [hstep] at h; cases h
    | some s1 =>
      rw [hstep] at h
      cases a with
      | acquire i =>
        simp only [step] at hstep
        split_ifs at hstep with hc
        injection hstep with hstep
        subst hstep
        obtain ⟨hidle, hfree⟩ := hc
        have hinv1 : LockInv roomOf (acquireState roomOf i s0) := by
          constructor
          · intro j hj
            by_cases hji : j = i
            · subst hji
              rw [lockOf_acquire, if_pos rfl]
            · have hcs : inCS s0 j := by
                rcases hj with hj | hj <;> rw [phaseOf_acquire, if_neg hji] at hj
                · exact Or.inl hj
                · exact Or.inr hj
              have hold := hinv.1 j hcs
              rw [lockOf_acquire]
              by_cases hrr : roomOf j = roomOf i
              · exfalso
                rw [hrr, hfree] at hold
                cases hold
              · rw [if_neg hrr]
                exact hold
          · intro r j hl
            rw [lockOf_acquire] at hl
            by_cases hri : r = roomOf i
            · rw [if_pos hri] at hl
              injection hl with hl
              subst hl
              subst hri
              exact ⟨rfl, Or.inl (by rw [phaseOf_acquire, if_pos rfl])⟩
            · rw [if_neg hri] at hl
              obtain ⟨hroom, hcs⟩ := hinv.2 r j hl
              refine ⟨hroom, ?_⟩
              by_cases hji : j = i
              · subst hji
                exact Or.inl (by rw [phaseOf_acquire, if_pos rfl])
              · rcases hcs with hcs | hcs
                · exact Or.inl (by rw [phaseOf_acquire, if_neg hji]; exact hcs)
                · exact Or.inr (by rw [phaseOf_acquire, if_neg hji]; exact hcs)
        obtain ⟨hinvS, hscan⟩ := ih _ s h hinv1
        refine ⟨hinvS, fun r => ?_⟩
        rw [projRoom_cons]
        simp only [actor]
        by_cases hri : roomOf i = r
        · subst hri
          rw [if_pos rfl, hfree, sessionScan_acquire]
          have h2 := hscan (roomOf i)
          rw [lockOf_acquire, if_pos rfl] at h2
          exact h2
        · rw [if_neg hri]
          have h2 := hscan r
          rw [lockOf_acquire, if_neg (fun hrr => hri hrr.symm)] at h2
          exact h2
      | read i rows =>
        simp only [step] at hstep
        split_ifs at hstep with hc
        injection hstep with hstep
        subst hstep
        obtain ⟨hent, hrows⟩ := hc
        have hheld : lockOf s0 (roomOf i) = some i := hinv.1 i (Or.inl hent)
        have hinv1 : LockInv roomOf (readState i s0) := by
          constructor
          · intro j hj
            rw [lockOf_read]
            by_cases hji : j = i
            · subst hji; exact hheld
            · apply hinv.1
              rcases hj with hj | hj <;> rw [phaseOf_read, if_neg hji] at hj
              · exact Or.inl hj
              · exact Or.inr hj
          · intro r j hl
            rw [lockOf_read] at hl
            obtain ⟨hroom, hcs⟩ := hinv.2 r j hl
            refine ⟨hroom, ?_⟩
            by_cases hji : j = i
            · subst hji
              exact Or.inr (by rw [phaseOf_read, if_pos rfl])
            · rcases hcs with hcs | hcs
              · exact Or.inl (by rw [phaseOf_read, if_neg hji]; exact hcs)
              · exact Or.inr (by rw [phaseOf_read, if_neg hji]; exact hcs)
        obtain ⟨hinvS, hscan⟩ := ih _ s h hinv1
        refine ⟨hinvS, fun r => ?_⟩
        rw [projRoom_cons]
        simp only [actor]
        by_cases hri : roomOf i = r
        · subst hri
          rw [if_pos rfl, hheld, sessionScan_read]
          have h2 := hscan (roomOf i)
          rw [lockOf_read, hheld] at h2
          exact h2
        · rw [if_neg hri]
          have h2 := hscan r
          rw [lockOf_read] at h2
          exact h2
      | write i rows =>
        simp only [step] at hstep
        split_ifs at hstep with hc
        injection hstep with hstep
        subst hstep
        have hheld : lockOf s0 (roomOf i) = some i := hinv.1 i (Or.inr hc)
        have hinv1 : LockInv roomOf (writeState roomOf i rows s0) := by
          constructor
          · intro j hj
            rw [lockOf_write]
            apply hinv.1
            rcases hj with hj | hj <;> rw [phaseOf_write] at hj
            · exact Or.inl hj
            · exact Or.inr hj
          · intro r j hl
            rw [lockOf_write] at hl
            obtain ⟨hroom, hcs⟩ := hinv.2 r j hl
            refine ⟨hroom, ?_⟩
            rcases hcs with hcs | hcs
            · exact Or.inl (by rw [phaseOf_write]; exact hcs)
            · exact Or.inr (by rw [phaseOf_write]; exact hcs)
        obtain ⟨hinvS, hscan⟩ := ih _ s h hinv1
        refine ⟨hinvS, fun r => ?_⟩
        rw [projRoom_cons]
        simp only [actor]
        by_cases hri : roomOf i = r
        · subst hri
          rw [if_pos rfl, hheld, sessionScan_write]
          have h2 := hscan (roomOf i)
          rw [lockOf_write, hheld] at h2
          exact h2
        · rw [if_neg hri]
          have h2 := hscan r
          rw [lockOf_write] at h2
          exact h2
      | release i =>
        simp only [step] at hstep
        split_ifs at hstep with hc
        injection hstep with hstep
        subst hstep
        have hheld : lockOf s0 (roomOf i) = some i := hinv.1 i hc
        have hinv1 : LockInv roomOf (releaseState roomOf i s0) := by
          constructor
          · intro j hj
            by_cases hji : j = i
            · subst hji
              exfalso
              rcases hj with hj | hj <;>
              · rw [phaseOf_release, if_pos rfl] at hj
                cases hj
            · have hcs : inCS s0 j := by
                rcases hj with hj | hj <;> rw [phaseOf_release, if_neg hji] at hj
                · exact Or.inl hj
                · exact Or.inr hj
              have hold := hinv.1 j hcs
              rw [lockOf_release]
              by_cases hrr : roomOf j = roomOf i
              · exfalso
                rw [hrr, hheld] at hold
                injection hold with hold
                exact hji hold.symm
              · rw [if_neg hrr]
                exact hold
          · intro r j hl
            rw [lockOf_release] at hl
            by_cases hri : r = roomOf i
            · rw [if_pos hri] at hl
              cases hl
            · rw [if_neg hri] at hl
              obtain ⟨hroom, hcs⟩ := hinv.2 r j hl
              have hji : j ≠ i := by
                intro hji
                subst hji
                exact hri hroom.symm
              refine ⟨hroom, ?_⟩
              rcases hcs with hcs | hcs
              · exact Or.inl (by rw [phaseOf_release, if_neg hji]; exact hcs)
              · exact Or.inr (by rw [phaseOf_release, if_neg hji]; exact hcs)
        obtain ⟨hinvS, hscan⟩ := ih _ s h hinv1
        refine ⟨hinvS, fun r => ?_⟩
        rw [projRoom_cons]
        simp only [actor]
        by_cases hri : roomOf i = r
        · subst hri
          rw [if_pos rfl, hheld, sessionScan_release]
          have h2 := hscan (roomOf i)
          rw [lockOf_release, if_pos rfl] at h2
          exact h2
        · rw [if_neg hri]
          have h2 := hscan r
          rw [lockOf_release, if_neg (fun hrr => hri hrr.symm)] at h2
          exact h2

theorem LockInv_init (roomOf : Nat → String) : LockInv roomOf initState := by
  constructor
  · intro i hi
    rcases hi with hi | hi <;> simp [phaseOf, initState, List.lookup] at hi
  · intro r i hl
    simp [lockOf, initState, List.lookup] at hl

theorem runTrace_append (roomOf : Nat → String) :
    ∀ (t1 t2 : List Act) (s0 : MState),
      runTrace roomOf s0 (t1 ++ t2)
        = (runTrace roomOf s0 t1).bind (fun s1 => runTrace roomOf s1 t2) := by
  intro t1
  induction t1 with
  | nil => intro t2 s0; rfl
  | cons a rest ih =>
    intro t2 s0
    simp only [List.cons_append, runTrace]
    cases hstep : step roomOf s0 a with
    | none => rfl
    | some s1 => exact ih t2 s1

theorem phase_untouched (roomOf : Nat → String) :
    ∀ (tr : List Act) (s0 s : MState) (i : Nat),
      runTrace roomOf s0 tr = some s → (∀ a ∈ tr, actor a ≠ i) →
      phaseOf s i = phaseOf s0 i := by
  intro tr
  induction tr with
  | nil =>
    intro s0 s i h _
    simp only [runTrace, Option.some.injEq] at h
    subst h
    rfl
  | cons a rest ih =>
    intro s0 s i h hna
    rw [runTrace] at h
    cases hstep : step roomOf s0 a with
    | none => rw [hstep] at h; cases h
    | some s1 =>
      rw [hstep] at h
      have hni : actor a ≠ i := hna a (by simp)
      have hrest : ∀ b ∈ rest, actor b ≠ i := fun b hb => hna b (by simp [hb])
      have htail := ih s1 s i h hrest
      rw [htail]
      cases a with
      | acquire j =>
        simp only [step] at hstep
        split_ifs at hstep with hc
        injection hstep with hstep
        subst hstep
        rw [phaseOf_acquire, if_neg (fun he => hni he.symm)]
      | read j rows =>
        simp only [step] at hstep
        split_ifs at hstep with hc
        injection hstep with hstep
        subst hstep
        rw [phaseOf_read, if_neg (fun he => hni he.symm)]
      | write j rows =>
        simp only [step] at hstep
        split_ifs at hstep with hc
        injection hstep with hstep
        subst hstep
        rw [phaseOf_write]
      | release j =>
        simp only [step] at hstep
        split_ifs at hstep with hc
        injection hstep with hstep
        subst hstep
        rw [phaseOf_release, if_neg (fun he => hni he.symm)]

/-- Claim C5: under the per-room lock discipline of `upload_image` —
`asyncio.Lock` acquired before the summary read, released after the body —
(1) at every point of any realizable schedule at most one task per room is
inside its critical section (uploads for one room are mutually excluded);
(2) each room's events form non-interleaved sessions (at-most-one in-flight
reconciliation per room); (3) every summary read observes exactly the
room's stored rows at that moment — in particular all rows committed by the
previous holder before it released; and (4) an upload task for a room whose
lock is free can always take its first step no matter which other rooms'
locks are held (uploads for different rooms do not block each other). -/
theorem c5_room_lock_serializes (roomOf : Nat → String) (tr : List Act)
    (h : (runTrace roomOf initState tr).isSome = true) :
    (∀ p s2, runTrace roomOf initState (tr.take p) = some s2 →
      ∀ i j, inCS s2 i → inCS s2 j → roomOf i = roomOf j → i = j) ∧
    (∀ r, (sessionScan Option.none (projRoom roomOf tr r)).isSome = true) ∧
    (∀ p i rows, tr[p]? = some (Act.read i rows) →
      ∃ sp, runTrace roomOf initState (tr.take p) = some sp ∧ rows = storeOf sp (roomOf i)) ∧
    (∀ i, (tr.all fun a => decide (actor a ≠ i)) = true →
      sessionScan Option.none (projRoom roomOf tr (roomOf i)) = some Option.none →
      (runTrace roomOf initState (tr ++ [Act.acquire i])).isSome = true) := by
  obtain ⟨s, hs⟩ := Option.isSome_iff_exists.mp h
  have hmain := runTrace_scan roomOf tr initState s hs (LockInv_init roomOf)
  refine ⟨?_, ?_, ?_, ?_⟩
  · intro p s2 hp2 i j hi hj hr
    have hinv2 := (runTrace_scan roomOf (tr.take p) initState s2 hp2 (LockInv_init roomOf)).1
    have h1 := hinv2.1 i hi
    have h2 := hinv2.1 j hj
    rw [hr] at h1
    rw [h1] at h2
    injection h2
  · intro r
    have := hmain.2 r
    have hinit : lockOf initState r = Option.none := rfl
    rw [hinit] at this
    rw [this]
    rfl
  · intro p i rows hp
    have hlen : p < tr.length := by
      by_contra hc
      push_neg at hc
      rw [List.getElem?_eq_none hc] at hp
      cases hp
    have hdec : tr = tr.take p ++ tr.drop p := (List.take_append_drop p tr).symm
    have hdrop : tr.drop p = Act.read i rows :: tr.drop (p + 1) := by
      have hel : tr[p] = Act.read i rows := by
        have h2 := List.getElem?_eq_getElem hlen
        rw [h2] at hp
        exact Option.some.inj hp
      rw [List.drop_eq_getElem_cons hlen, hel]
    have hrun2 := hs
    rw [hdec, runTrace_append] at hrun2
    cases htake : runTrace roomOf initState (tr.take p) with
    | none => rw [htake] at hrun2; cases hrun2
    | some sp =>
      rw [htake] at hrun2
      change runTrace roomOf sp (tr.drop p) = some s at hrun2
      rw [hdrop, runTrace] at hrun2
      cases hstep : step roomOf sp (Act.read i rows) with
      | none => rw [hstep] at hrun2; cases hrun2
      | some sq =>
        simp only [step] at hstep
        split_ifs at hstep with hc
        exact ⟨sp, rfl, hc.2⟩
  · intro i hall hopen
    have hfree : lockOf s (roomOf i) = Option.none := by
      have := hmain.2 (roomOf i)
      have hinit : lockOf initState (roomOf i) = Option.none := rfl
      rw [hinit] at this
      rw [hopen] at this
      injection this with this
      exact this.symm
    have hidle : phaseOf s i = .idle := by
      have := phase_untouched roomOf tr initState s i hs ?_
      · rw [this]; rfl
      · intro a ha
        have := List.all_eq_true.mp hall a ha
        simpa using this
    rw [runTrace_append, hs]
    change (runTrace roomOf s [Act.acquire i]).isSome = true
    rw [runTrace]
    have hstep : step roomOf s (Act.acquire i) = some (acquireState roomOf i s) := by
      simp only [step]
      rw [if_pos ⟨hidle, hfree⟩]
    rw [hstep]
    rfl

/-- A sample room assignment: both tasks upload to room `r1`. -/
def sampleRoomOf : Nat → String := fun _ => "r1"

/-- A sample stored row. -/
def sampleRow : Row := ⟨"r1", "block-1", "note", "x.", Option.none, Option.none⟩

/-- A sample schedule: upload 0 reads the empty room, writes a row and
releases; upload 1 then reads — and observes — that row. -/
def sampleTrace : List Act :=
  [.acquire 0, .read 0 [], .write 0 [sampleRow], .release 0,
   .acquire 1, .read 1 [sampleRow], .release 1]

/-- Witness for `c5_room_lock_serializes` on the sample schedule. -/
theorem c5_room_lock_serializes_witness :
    ((runTrace sampleRoomOf initState sampleTrace).isSome = true) ∧
    ((∀ p s2, runTrace sampleRoomOf initState (sampleTrace.take p) = some s2 →
      ∀ i j, inCS s2 i → inCS s2 j → sampleRoomOf i = sampleRoomOf j → i = j) ∧
    (∀ r, (sessionScan Option.none (projRoom sampleRoomOf sampleTrace r)).isSome = true) ∧
    (∀ p i rows, sampleTrace[p]? = some (Act.read i rows) →
      ∃ sp, runTrace sampleRoomOf initState (sampleTrace.take p) = some sp ∧
        rows = storeOf sp (sampleRoomOf i)) ∧
    (∀ i, (sampleTrace.all fun a => decide (actor a ≠ i)) = true →
      sessionScan Option.none (projRoom sampleRoomOf sampleTrace (sampleRoomOf i))
        = some Option.none →
      (runTrace sampleRoomOf initState (sampleTrace ++ [Act.acquire i])).isSome = true)) :=
  ⟨by decide, c5_room_lock_serializes sampleRoomOf sampleTrace (by decide)⟩

end Chalk
